import Mathlib

/-!
Verification development for the MPS collectable pool machinery
(src/code/poolams.c, src/code/poolawl.c, src/code/poolsnc.c).

The per-grain metadata of a segment is embedded shallowly: a bit table is a
total function from grain indices to Bool, a trace set is a finite set of
trace identifiers, and each pool-class operation is a Lean function mirroring
the corresponding C function's effect on the segment's metadata.  Address
arithmetic is over Nat; external collaborators (format skip, arena search,
the generic buffer and segment superclasses) enter as explicit parameters.
-/

namespace MPS

/-! ## Bit tables

The BT interface (code/bt, used throughout poolams.c and poolawl.c) is
modelled as a total function on grain indices; range operations write the
half-open range [base, limit). -/

abbrev BT : Type := Nat → Bool

def BTGet (bt : BT) (i : Nat) : Bool := bt i

def BTSet (bt : BT) (i : Nat) : BT := fun k => if k = i then true else bt k

def BTRes (bt : BT) (i : Nat) : BT := fun k => if k = i then false else bt k

def BTSetRange (bt : BT) (base limit : Nat) : BT :=
  fun k => if base ≤ k ∧ k < limit then true else bt k

def BTResRange (bt : BT) (base limit : Nat) : BT :=
  fun k => if base ≤ k ∧ k < limit then false else bt k

def BTCopyRange (src dst : BT) (base limit : Nat) : BT :=
  fun k => if base ≤ k ∧ k < limit then src k else dst k

def BTIsSetRange (bt : BT) (base limit : Nat) : Bool :=
  (List.range limit).all fun k => decide (k < base) || bt k

def BTIsResRange (bt : BT) (base limit : Nat) : Bool :=
  (List.range limit).all fun k => decide (k < base) || !(bt k)

def BTCountResRange (bt : BT) (base limit : Nat) : Nat :=
  (List.range limit).countP fun k => decide (base ≤ k) && !(bt k)

/-- Trace sets (TraceSet in mpm): a finite set of trace identifiers. -/
abbrev TraceSet : Type := Finset Nat

/-- Reference ranks (Rank in mpm): AMBIG, EXACT, FINAL, WEAK. -/
inductive Rank : Type
  | rankAMBIG
  | rankEXACT
  | rankFINAL
  | rankWEAK
deriving DecidableEq, Repr

/-- Result codes (Res in mpm) as far as the modelled paths produce them. -/
inductive ResCode : Type
  | resOK
  | resFAIL
  | resMEMORY
  | resRESOURCE
deriving DecidableEq, Repr

/-! ## AMS segments (poolams.c)

AMSSegStruct carries three bit tables (alloc, nongrey, nonwhite), the grain
counters, the firstFree cursor and the table-use flags, plus the generic
segment's white and grey trace sets.  When the pool sets shareAllocTable the
C code makes nonwhiteTable alias allocTable (amsCreateTables); the aliasing
is modelled by reading and writing the nonwhite table through a view that
selects allocBT exactly when the pool shares the tables. -/

structure AMSPool : Type where
  shareAllocTable : Bool
  alignment : Nat
  headerSize : Nat
deriving Repr

structure AMSSeg : Type where
  grains : Nat
  freeGrains : Nat
  bufferedGrains : Nat
  newGrains : Nat
  oldGrains : Nat
  allocBT : BT
  nongreyBT : BT
  nonwhiteBT : BT
  allocTableInUse : Bool
  firstFree : Nat
  colourTablesInUse : Bool
  marksChanged : Bool
  ambiguousFixes : Bool
  segWhite : TraceSet
  segGrey : TraceSet

/-- The nonwhite table as the C code sees it: under shareAllocTable it is the
alloc table's storage (amsCreateTables aliases the two). -/
def nonwhiteView (ams : AMSPool) (s : AMSSeg) : BT :=
  if ams.shareAllocTable then s.allocBT else s.nonwhiteBT

/-- Write through the nonwhite table, respecting the aliasing. -/
def updNonwhite (ams : AMSPool) (s : AMSSeg) (f : BT → BT) : AMSSeg :=
  if ams.shareAllocTable then { s with allocBT := f s.allocBT }
  else { s with nonwhiteBT := f s.nonwhiteBT }

/-- Modelled from the spec: AMS_ALLOCED of poolams.h (the header is not under
src/); a grain is allocated per the alloc table when it is in use, else per
the firstFree cursor. -/
def AMS_ALLOCED (s : AMSSeg) (i : Nat) : Bool :=
  if s.allocTableInUse then s.allocBT i else decide (i < s.firstFree)

/-- Modelled from the spec: a grain is white iff its nonwhite bit is clear
(spec section 3, colour encoding; AMS_IS_WHITE of poolams.h). -/
def AMS_IS_WHITE (ams : AMSPool) (s : AMSSeg) (i : Nat) : Bool :=
  !(nonwhiteView ams s i)

/-- Modelled from the spec: a grain is grey iff its nongrey bit is clear
(spec section 3, colour encoding; AMS_IS_GREY of poolams.h). -/
def AMS_IS_GREY (s : AMSSeg) (i : Nat) : Bool :=
  !(s.nongreyBT i)

/-- Modelled from the spec: invalid colour is white-and-grey, i.e. both the
nonwhite and nongrey bits clear (AMS_IS_INVALID_COLOUR of poolams.h). -/
def AMS_IS_INVALID_COLOUR (ams : AMSPool) (s : AMSSeg) (i : Nat) : Bool :=
  AMS_IS_WHITE ams s i && AMS_IS_GREY s i

/-- Modelled from the spec: whiten a range (AMS_RANGE_WHITEN of poolams.h):
reset nonwhite and set nongrey over the range, making every grain white. -/
def AMS_RANGE_WHITEN (ams : AMSPool) (s : AMSSeg) (base limit : Nat) : AMSSeg :=
  let s1 := updNonwhite ams s fun bt => BTResRange bt base limit
  { s1 with nongreyBT := BTSetRange s1.nongreyBT base limit }

/-- Modelled from the spec: blacken a range (AMS_RANGE_BLACKEN of poolams.h):
set nonwhite and nongrey over the range, making every grain black. -/
def AMS_RANGE_BLACKEN (ams : AMSPool) (s : AMSSeg) (base limit : Nat) : AMSSeg :=
  let s1 := updNonwhite ams s fun bt => BTSetRange bt base limit
  { s1 with nongreyBT := BTSetRange s1.nongreyBT base limit }

/-- Modelled from the spec: turn white grains black without a grey stop
(AMS_RANGE_WHITE_BLACKEN of poolams.h): set nonwhite over the range; nongrey
is untouched (white grains have it set already). -/
def AMS_RANGE_WHITE_BLACKEN (ams : AMSPool) (s : AMSSeg) (base limit : Nat) :
    AMSSeg :=
  updNonwhite ams s fun bt => BTSetRange bt base limit

/-- Modelled from the spec: turn a white grain grey (AMS_WHITE_GREYEN of
poolams.h): set its nonwhite bit and reset its nongrey bit. -/
def AMS_WHITE_GREYEN (ams : AMSPool) (s : AMSSeg) (i : Nat) : AMSSeg :=
  let s1 := updNonwhite ams s fun bt => BTSet bt i
  { s1 with nongreyBT := BTRes s1.nongreyBT i }

/-- Modelled from the spec: turn a grey grain black (AMS_GREY_BLACKEN of
poolams.h): set its nongrey bit. -/
def AMS_GREY_BLACKEN (s : AMSSeg) (i : Nat) : AMSSeg :=
  { s with nongreyBT := BTSet s.nongreyBT i }

/-! ## AMS segment operations -/

/-- AMSSegInit (poolams.c): a fresh segment of the given grain count; the
three tables come from amsCreateTables with arbitrary contents (BTCreate
does not initialise them), all grains free, firstFree mode, no colour
tables, empty trace sets. -/
def AMSSegInit (grains : Nat) (allocT nongreyT nonwhiteT : BT) : AMSSeg where
  grains := grains
  freeGrains := grains
  bufferedGrains := 0
  newGrains := 0
  oldGrains := 0
  allocBT := allocT
  nongreyBT := nongreyT
  nonwhiteBT := nonwhiteT
  allocTableInUse := false
  firstFree := 0
  colourTablesInUse := false
  marksChanged := false
  ambiguousFixes := false
  segWhite := ∅
  segGrey := ∅

/-- amsSegRangeWhiten (poolams.c): condemn a part of a segment; callers may
pass base = limit. -/
def amsSegRangeWhiten (ams : AMSPool) (s : AMSSeg) (base limit : Nat) : AMSSeg :=
  if base ≠ limit then AMS_RANGE_WHITEN ams s base limit else s

/-- The ageing tail of amsSegWhiten (poolams.c lines 1154-1173): account the
condemned grains as old, record the uncondemned buffered grains, and either
add the trace to SegWhite (some old grains) or turn the colour tables back
off (nothing to collect). -/
def amsSegWhitenAge (s : AMSSeg) (trace : Nat) (uncondemnedGrains : Nat) :
    AMSSeg :=
  let agedGrains := s.bufferedGrains - uncondemnedGrains
  let s1 := { s with
    oldGrains := s.oldGrains + agedGrains + s.newGrains
    bufferedGrains := uncondemnedGrains
    newGrains := 0
    marksChanged := false
    ambiguousFixes := false }
  if 0 < s1.oldGrains then { s1 with segWhite := insert trace s1.segWhite }
  else { s1 with colourTablesInUse := false }

/-- The table preparation of amsSegWhiten (poolams.c lines 1117-1136): init
the alloc table if the segment was in firstFree mode, then either stop using
it (shared pools overload it as the white table) or start using it. -/
def amsSegWhitenPrep (ams : AMSPool) (s : AMSSeg) : AMSSeg :=
  -- Init allocTable, if necessary.
  let s2 :=
    if !s.allocTableInUse then
      let sa :=
        if 0 < s.firstFree then
          { s with allocBT := BTSetRange s.allocBT 0 s.firstFree }
        else s
      if sa.firstFree < sa.grains then
        { sa with allocBT := BTResRange sa.allocBT sa.firstFree sa.grains }
      else sa
    else s
  -- Start using allocTable as the white table, if so configured.
  if ams.shareAllocTable then
    if s2.allocTableInUse then
      { s2 with allocTableInUse := false, firstFree := s2.grains }
    else s2
  else { s2 with allocTableInUse := true }

/-- amsSegWhiten (poolams.c): the condemning method.  buffer carries the
buffer's (scanLimitIndex, limitIndex) when the segment has one (the C code
derives the indices from BufferScanLimit and BufferLimit).  AVERs
(SegWhite = ∅, colour tables off, bufferedGrains ≥ uncondemned) appear as
hypotheses of the theorems. -/
def amsSegWhiten (ams : AMSPool) (s : AMSSeg) (trace : Nat)
    (buffer : Option (Nat × Nat)) : AMSSeg :=
  let s3 := amsSegWhitenPrep ams { s with colourTablesInUse := true }
  match buffer with
  | some (scanLimitIndex, limitIndex) =>
    let s4 := amsSegRangeWhiten ams s3 0 scanLimitIndex
    let s5 :=
      if scanLimitIndex < limitIndex then
        AMS_RANGE_BLACKEN ams s4 scanLimitIndex limitIndex
      else s4
    let s6 := amsSegRangeWhiten ams s5 limitIndex s5.grains
    amsSegWhitenAge s6 trace (limitIndex - scanLimitIndex)
  | none =>
    let s4 := amsSegRangeWhiten ams s3 0 s3.grains
    amsSegWhitenAge s4 trace 0

/-- amsSegFix (poolams.c): the segment fixing method.  segBase is SegBase;
skipFn is the format's skip method on client addresses; segRankSetEmpty is
SegRankSet(seg) == RankSetEMPTY; traces is ss->traces.  Returns the updated
segment, the reference cell (*refIO) after the call, and the result code
(every path of the C function returns ResOK).  The AVERs (colour tables in
use, SegBase ≤ clientRef < SegLimit, i < grains, colour not invalid) are
hypotheses of the theorems. -/
def amsSegFix (ams : AMSPool) (segBase : Nat) (skipFn : Nat → Nat)
    (segRankSetEmpty : Bool) (s : AMSSeg) (rank : Rank) (traces : TraceSet)
    (clientRef : Nat) : AMSSeg × Nat × ResCode :=
  let base := clientRef - ams.headerSize
  if base < segBase then
    -- not a real reference (AVER rank = AMBIG)
    (s, clientRef, ResCode.resOK)
  else if !(base % ams.alignment = 0) then
    -- not a real reference if unaligned (AVER rank = AMBIG)
    (s, clientRef, ResCode.resOK)
  else
    let i := (base - segBase) / ams.alignment
    if !(AMS_ALLOCED s i) then
      -- not a real reference if unallocated (AVER rank = AMBIG)
      (s, clientRef, ResCode.resOK)
    else
      let dispatch : AMSSeg → AMSSeg × Nat × ResCode := fun s0 =>
        if AMS_IS_WHITE ams s0 i then
          if rank = Rank.rankWEAK then
            (s0, 0, ResCode.resOK)  -- splat the reference
          else if segRankSetEmpty && !(rank = Rank.rankAMBIG) then
            -- <design/poolams#.fix.to-black>
            let clientNext := skipFn clientRef
            let next := clientNext - ams.headerSize
            (AMS_RANGE_WHITE_BLACKEN ams s0 i ((next - segBase) / ams.alignment),
             clientRef, ResCode.resOK)
          else
            -- turn it grey
            let s1 := AMS_WHITE_GREYEN ams s0 i
            ({ s1 with segGrey := s1.segGrey ∪ traces, marksChanged := true },
             clientRef, ResCode.resOK)
        else (s0, clientRef, ResCode.resOK)
      match rank with
      | Rank.rankAMBIG =>
        if ams.shareAllocTable then
          -- the pool does not support ambiguous references: not a reference
          (s, clientRef, ResCode.resOK)
        else
          dispatch { s with ambiguousFixes := true }
      | _ => dispatch s

/-- The colour transitions of amsScanObject (poolams.c): after scanning the
object at grains [i, j), a grey-only scan blackens the grey head grain and
white-blackens the body.  The same transitions are performed by the
grey-only loop of amsSegScan (lines 1405-1407).  j is the grain index of the
object's limit. -/
def amsScanObjectColour (ams : AMSPool) (s : AMSSeg) (scanAllObjects : Bool)
    (i j : Nat) : AMSSeg :=
  if scanAllObjects || AMS_IS_GREY s i then
    if !scanAllObjects then
      let s1 := AMS_GREY_BLACKEN s i
      if i + 1 < j then AMS_RANGE_WHITE_BLACKEN ams s1 (i + 1) j else s1
    else s
  else s

/-- amsSegBlackenObject (poolams.c): what amsScanObject does, minus the
scanning: a grey object at grains [i, j) has its head grain grey-blackened
and its body range-blackened. -/
def amsSegBlackenObject (ams : AMSPool) (s : AMSSeg) (i j : Nat) : AMSSeg :=
  if AMS_IS_GREY s i then
    let s1 := AMS_GREY_BLACKEN s i
    if i + 1 < j then AMS_RANGE_BLACKEN ams s1 (i + 1) j else s1
  else s

/-- amsSegReclaim (poolams.c): count the nonwhite grains, restore the alloc
table's role, move the reclaimed grains from old to free, turn the colour
tables off and remove the trace from SegWhite.  The debug splatting loop and
the PoolGenFree of an empty segment are external effects and not modelled.
The AVERs (colour tables in use, nothing grey, oldGrains ≥ reclaimed) are
hypotheses of the theorems. -/
def amsSegReclaim (ams : AMSPool) (s : AMSSeg) (trace : Nat) : AMSSeg :=
  let grains := s.grains
  let nowFree := BTCountResRange (nonwhiteView ams s) 0 grains
  -- If the free space is all after firstFree, keep on using firstFree.
  let s1 :=
    if !s.allocTableInUse && s.firstFree + nowFree = grains then s
    else if ams.shareAllocTable then
      -- Stop using allocTable as the white table.
      { s with allocTableInUse := true }
    else
      { s with allocBT := BTCopyRange (nonwhiteView ams s) s.allocBT 0 grains }
  let reclaimedGrains := nowFree - s1.freeGrains
  let s2 := { s1 with
    oldGrains := s1.oldGrains - reclaimedGrains
    freeGrains := s1.freeGrains + reclaimedGrains }
  { s2 with colourTablesInUse := false, segWhite := s2.segWhite.erase trace }

/-- The `found:` tail of amsSegBufferFill (poolams.c lines 925-946): mark the
chosen grain range [baseIndex, limitIndex) allocated and move it from free
to buffered. -/
def amsSegBufferFillFound (s : AMSSeg) (baseIndex limitIndex : Nat) : AMSSeg :=
  let s1 :=
    if s.allocTableInUse then
      { s with allocBT := BTSetRange s.allocBT baseIndex limitIndex }
    else { s with firstFree := limitIndex }
  let allocatedGrains := limitIndex - baseIndex
  { s1 with
    freeGrains := s1.freeGrains - allocatedGrains
    bufferedGrains := s1.bufferedGrains + allocatedGrains }

/-- amsSegBufferFill (poolams.c): try filling a buffer from the segment.
btFind stands for BTFindLongResRange (code/bt, not under src/): it returns
the range found in the alloc table, if any.  hasBuffer, whiteOrGrey and
rankMatches are the segment-level guards the C code reads from the generic
segment.  Returns the updated segment and the range on success. -/
def amsSegBufferFill (s : AMSSeg) (requestedGrains : Nat)
    (hasBuffer whiteOrGrey rankMatches : Bool)
    (btFind : BT → Nat → Nat → Nat → Option (Nat × Nat)) :
    Option (AMSSeg × Nat × Nat) :=
  if s.freeGrains < requestedGrains then none
  else if hasBuffer then none
  else if whiteOrGrey then none
  else if !rankMatches then none
  else
    let segGrains := s.grains
    if s.freeGrains = segGrains then
      -- Whole segment is free: no need for a search.
      some (amsSegBufferFillFound s 0 segGrains, 0, segGrains)
    else if s.allocTableInUse then
      match btFind s.allocBT 0 segGrains requestedGrains with
      | none => none
      | some (baseIndex, limitIndex) =>
        some (amsSegBufferFillFound s baseIndex limitIndex,
              baseIndex, limitIndex)
    else
      if s.firstFree > segGrains - requestedGrains then none
      else
        some (amsSegBufferFillFound s s.firstFree segGrains,
              s.firstFree, segGrains)

/-- The table phase of amsSegBufferEmpty (poolams.c lines 1020-1058): free
the range in the alloc table or via firstFree (or leave the shared table to
the colour machinery), then re-whiten the range if the colour tables are in
use. -/
def amsSegBufferEmptyTables (ams : AMSPool) (s : AMSSeg)
    (initIndex limitIndex : Nat) : AMSSeg :=
  if initIndex < limitIndex then
    let sa :=
      if s.allocTableInUse then
        { s with allocBT := BTResRange s.allocBT initIndex limitIndex }
      else if limitIndex = s.firstFree then
        -- is it at the end?
        { s with firstFree := initIndex }
      else if ams.shareAllocTable && s.colourTablesInUse then
        -- must not start using allocTable: the unused portion of the
        -- buffer stays accounted in the colour tables (whitened below)
        s
      else
        -- start using allocTable
        let sb := { s with allocTableInUse := true }
        let sb := { sb with allocBT := BTSetRange sb.allocBT 0 sb.firstFree }
        let sb :=
          if sb.firstFree < sb.grains then
            { sb with allocBT := BTResRange sb.allocBT sb.firstFree sb.grains }
          else sb
        { sb with allocBT := BTResRange sb.allocBT initIndex limitIndex }
    if sa.colourTablesInUse then AMS_RANGE_WHITEN ams sa initIndex limitIndex
    else sa
  else s

/-- amsSegBufferEmpty (poolams.c): return the unused part [initIndex,
limitIndex) of the buffer to the segment (the C code derives the indices
from BufferGetInit and BufferLimit), re-whiten it if the colour tables are
in use, and move the buffered grains to free (unused) and new (used).  The
AVERs (range allocated, unusedGrains ≤ bufferedGrains) are hypotheses of the
theorems. -/
def amsSegBufferEmpty (ams : AMSPool) (s : AMSSeg) (initIndex limitIndex : Nat) :
    AMSSeg :=
  let s1 := amsSegBufferEmptyTables ams s initIndex limitIndex
  let unusedGrains := limitIndex - initIndex
  let usedGrains := s1.bufferedGrains - unusedGrains
  { s1 with
    freeGrains := s1.freeGrains + unusedGrains
    bufferedGrains := 0
    newGrains := s1.newGrains + usedGrains }

/-! ## AMS segment split and merge (poolams.c)

The table contents and grain counters of AMSSegSplit and AMSSegMerge on
their success path (the superclass call succeeded), for a pool that does not
share the alloc and nonwhite tables; with sharing, MERGE_TABLES is skipped
for the nonwhite table and the nonwhite storage is the alloc storage.
amsCreateTables returns tables with arbitrary contents, so the fresh tables
enter as parameters. -/

structure TablePack : Type where
  allocT : BT
  nongreyT : BT
  nonwhiteT : BT

/-- AMSSegSplit (poolams.c), success path, non-shared tables: the low half
keeps the first loGrains grains of each table (SPLIT_TABLES copies them into
the fresh low tables), the high half's fresh tables are set (nonwhite,
nongrey) or reset (alloc) over [0, hiGrains); the high half starts fully
free in firstFree mode.  segWhiteHi and segGreyHi are the high half's trace
sets as produced by the generic segment split. -/
def AMSSegSplit (s : AMSSeg) (loGrains hiGrains : Nat) (fLo fHi : TablePack)
    (segWhiteHi segGreyHi : TraceSet) : AMSSeg × AMSSeg :=
  let lo := { s with
    grains := loGrains
    nonwhiteBT := BTCopyRange s.nonwhiteBT fLo.nonwhiteT 0 loGrains
    nongreyBT := BTCopyRange s.nongreyBT fLo.nongreyT 0 loGrains
    allocBT := BTCopyRange s.allocBT fLo.allocT 0 loGrains
    freeGrains := s.freeGrains - hiGrains }
  let hi : AMSSeg := {
    grains := hiGrains
    freeGrains := hiGrains
    bufferedGrains := 0
    newGrains := 0
    oldGrains := 0
    allocBT := BTResRange fHi.allocT 0 hiGrains
    nongreyBT := BTSetRange fHi.nongreyT 0 hiGrains
    nonwhiteBT := BTSetRange fHi.nonwhiteT 0 hiGrains
    allocTableInUse := false
    firstFree := 0
    colourTablesInUse := decide (segWhiteHi ≠ ∅)
    marksChanged := false
    ambiguousFixes := false
    segWhite := segWhiteHi
    segGrey := segGreyHi }
  (lo, hi)

/-- AMSSegMerge (poolams.c), success path, non-shared tables: each merged
table holds the low half's first loGrains bits (MERGE_TABLES copies them
into the fresh table) and is set (nonwhite, nongrey) or reset (alloc) over
the high range; the counters are summed.  Other fields of the low segment
are unaffected. -/
def AMSSegMerge (sLo sHi : AMSSeg) (f : TablePack) : AMSSeg :=
  let loGrains := sLo.grains
  let allGrains := sLo.grains + sHi.grains
  { sLo with
    grains := allGrains
    allocBT := BTResRange (BTCopyRange sLo.allocBT f.allocT 0 loGrains)
      loGrains allGrains
    nongreyBT := BTSetRange (BTCopyRange sLo.nongreyBT f.nongreyT 0 loGrains)
      loGrains allGrains
    nonwhiteBT := BTSetRange (BTCopyRange sLo.nonwhiteBT f.nonwhiteT 0 loGrains)
      loGrains allGrains
    freeGrains := sLo.freeGrains + sHi.freeGrains
    bufferedGrains := sLo.bufferedGrains + sHi.bufferedGrains
    newGrains := sLo.newGrains + sHi.newGrains
    oldGrains := sLo.oldGrains + sHi.oldGrains }

/-! ## Table allocation choreography (poolams.c)

amsCreateTables, amsDestroyTables and the allocation phases of AMSSegSplit
and AMSSegMerge at the resource level: BTCreate draws from a supply of
successes and failures and yields fresh table identities; every BTCreate and
BTDestroy is recorded, so that the clean-up discipline (tables acquired in a
prefix are destroyed in reverse) is a statement about the event list. -/

inductive BTEvent : Type
  | create (id : Nat)
  | destroy (id : Nat)
deriving DecidableEq, Repr

structure AllocSt : Type where
  supply : List Bool
  nextId : Nat
  events : List BTEvent
deriving Repr

/-- BTCreate (code/bt, external): consume one supply entry; on success yield
a fresh table identity and record the creation. -/
def btCreateEv (st : AllocSt) : Option Nat × AllocSt :=
  match st.supply with
  | [] => (none, st)
  | ok :: rest =>
    if ok then
      (some st.nextId,
       { supply := rest, nextId := st.nextId + 1,
         events := st.events ++ [BTEvent.create st.nextId] })
    else (none, { st with supply := rest })

/-- BTDestroy (code/bt, external): record the destruction. -/
def btDestroyEv (id : Nat) (st : AllocSt) : AllocSt :=
  { st with events := st.events ++ [BTEvent.destroy id] }

/-- amsCreateTables (poolams.c): create the alloc table, then the nongrey
table, then (unless the pool shares tables, in which case the nonwhite table
is the alloc table) the nonwhite table; on a failure destroy the tables
already created, in reverse order, and propagate the failure. -/
def amsCreateTablesEv (share : Bool) (st : AllocSt) :
    Option (Nat × Nat × Nat) × AllocSt :=
  match btCreateEv st with
  | (none, st1) => (none, st1)
  | (some allocTable, st1) =>
    match btCreateEv st1 with
    | (none, st2) => (none, btDestroyEv allocTable st2)  -- failGrey
    | (some nongreyTable, st2) =>
      if share then (some (allocTable, nongreyTable, allocTable), st2)
      else
        match btCreateEv st2 with
        | (none, st3) =>  -- failWhite, then failGrey
          (none, btDestroyEv allocTable (btDestroyEv nongreyTable st3))
        | (some nonwhiteTable, st3) =>
          (some (allocTable, nongreyTable, nonwhiteTable), st3)

/-- amsDestroyTables (poolams.c): destroy the nonwhite table (unless
shared), then the nongrey table, then the alloc table. -/
def amsDestroyTablesEv (share : Bool) (allocTable nongreyTable nonwhiteTable : Nat)
    (st : AllocSt) : AllocSt :=
  let st1 := if share then st else btDestroyEv nonwhiteTable st
  btDestroyEv allocTable (btDestroyEv nongreyTable st1)

/-- The allocation phase of AMSSegSplit (poolams.c): create the low half's
tables, then the high half's tables (.alloc-early), then call the superclass
split (external; superOk is its outcome).  On any failure the tables already
created are destroyed, later halves first, each pack in reverse creation
order, the error propagates, and no segment state has been touched: the
function yields the segment pair only after every fallible step has
succeeded. -/
def amsSegSplitEv (share : Bool) (superOk : Bool) (st : AllocSt) :
    Option ((Nat × Nat × Nat) × (Nat × Nat × Nat)) × AllocSt :=
  match amsCreateTablesEv share st with
  | (none, st1) => (none, st1)  -- failCreateTablesLo
  | (some lo, st1) =>
    match amsCreateTablesEv share st1 with
    | (none, st2) =>  -- failCreateTablesHi
      (none, amsDestroyTablesEv share lo.1 lo.2.1 lo.2.2 st2)
    | (some hi, st2) =>
      if superOk then (some (lo, hi), st2)
      else  -- failSuper
        (none,
         amsDestroyTablesEv share lo.1 lo.2.1 lo.2.2
           (amsDestroyTablesEv share hi.1 hi.2.1 hi.2.2 st2))

/-- The allocation phase of AMSSegMerge (poolams.c): create the merged
segment's tables (.alloc-early), then call the superclass merge (superOk is
its outcome); on failure destroy the new tables, in reverse creation order,
and propagate. -/
def amsSegMergeEv (share superOk : Bool) (st : AllocSt) :
    Option (Nat × Nat × Nat) × AllocSt :=
  match amsCreateTablesEv share st with
  | (none, st1) => (none, st1)  -- failCreateTables
  | (some ids, st1) =>
    if superOk then (some ids, st1)
    else  -- failSuper
      (none, amsDestroyTablesEv share ids.1 ids.2.1 ids.2.2 st1)

/-- The creations of an event list, in order. -/
def createsOf : List BTEvent → List Nat
  | [] => []
  | BTEvent.create id :: rest => id :: createsOf rest
  | BTEvent.destroy _ :: rest => createsOf rest

/-- The destructions of an event list, in order. -/
def destroysOf : List BTEvent → List Nat
  | [] => []
  | BTEvent.create _ :: rest => destroysOf rest
  | BTEvent.destroy id :: rest => id :: destroysOf rest

/-- AMSSegSplit (poolams.c) with its allocation phase: the segment is
touched only after both table packs have been created and the superclass
split has succeeded; any failure leaves the segment as it was. -/
def AMSSegSplitWithAlloc (s : AMSSeg) (loGrains hiGrains : Nat)
    (fLo fHi : TablePack) (segWhiteHi segGreyHi : TraceSet)
    (share superOk : Bool) (st : AllocSt) :
    (AMSSeg × Option AMSSeg) × AllocSt :=
  match amsSegSplitEv share superOk st with
  | (none, st') => ((s, none), st')
  | (some _, st') =>
    let (lo, hi) := AMSSegSplit s loGrains hiGrains fLo fHi segWhiteHi segGreyHi
    ((lo, some hi), st')

/-! ## AWL segments (poolawl.c)

AWLSegStruct carries the mark, scanned and alloc bit tables, the grain
counters and the per-segment single-access count, plus the generic segment's
white and grey trace sets. -/

structure AWLSeg : Type where
  grains : Nat
  mark : BT
  scanned : BT
  alloc : BT
  freeGrains : Nat
  bufferedGrains : Nat
  newGrains : Nat
  oldGrains : Nat
  singleAccesses : Nat
  segWhite : TraceSet
  segGrey : TraceSet

/-- AWLSegInit (poolawl.c): all three tables reset, all grains free. -/
def AWLSegInit (grains : Nat) : AWLSeg where
  grains := grains
  mark := fun _ => false
  scanned := fun _ => false
  alloc := fun _ => false
  freeGrains := grains
  bufferedGrains := 0
  newGrains := 0
  oldGrains := 0
  singleAccesses := 0
  segWhite := ∅
  segGrey := ∅

/-- The `found:` block of AWLBufferFill (poolawl.c lines 648-664): the range
[i, j) handed to the buffer has its alloc bits set, and its mark and scanned
bits set too (objects are allocated black); the grains move from free to
buffered. -/
def AWLBufferFillFound (s : AWLSeg) (i j : Nat) : AWLSeg :=
  { s with
    alloc := BTSetRange s.alloc i j
    mark := BTSetRange s.mark i j
    scanned := BTSetRange s.scanned i j
    freeGrains := s.freeGrains - (j - i)
    bufferedGrains := s.bufferedGrains + (j - i) }

/-- AWLBufferEmpty (poolawl.c): reset the alloc bits of the unused range
[i, j) (the C code derives the indices from init and limit) and move the
buffered grains to free (unused) and new (used). -/
def AWLBufferEmpty (s : AWLSeg) (i j : Nat) : AWLSeg :=
  let s1 := if i < j then { s with alloc := BTResRange s.alloc i j } else s
  let unusedGrains := j - i
  let usedGrains := s1.bufferedGrains - unusedGrains
  { s1 with
    freeGrains := s1.freeGrains + unusedGrains
    bufferedGrains := 0
    newGrains := s1.newGrains + usedGrains }

/-- awlRangeWhiten (poolawl.c): reset mark and scanned over a range; callers
may pass base = limit. -/
def awlRangeWhiten (s : AWLSeg) (base limit : Nat) : AWLSeg :=
  if base ≠ limit then
    { s with
      mark := BTResRange s.mark base limit
      scanned := BTResRange s.scanned base limit }
  else s

/-- AWLWhiten (poolawl.c): whiten everything except the buffer (given as its
(scanLimitIndex, limitIndex) pair when present), age the condemned buffered
grains and all new grains into old, and add the trace to SegWhite when any
old grains remain.  The AVERs (SegWhite = ∅, buffer black, bufferedGrains ≥
uncondemned) are hypotheses of the theorems. -/
def AWLWhiten (s : AWLSeg) (trace : Nat) (buffer : Option (Nat × Nat)) : AWLSeg :=
  let p :=
    match buffer with
    | none => (awlRangeWhiten s 0 s.grains, 0)
    | some (scanLimitIndex, limitIndex) =>
      let s1 := awlRangeWhiten s 0 scanLimitIndex
      let s2 := awlRangeWhiten s1 limitIndex s1.grains
      (s2, limitIndex - scanLimitIndex)
  let s3 := p.1
  let uncondemnedGrains := p.2
  let agedGrains := s3.bufferedGrains - uncondemnedGrains
  let s4 := { s3 with
    oldGrains := s3.oldGrains + agedGrains + s3.newGrains
    bufferedGrains := uncondemnedGrains
    newGrains := 0 }
  if 0 < s4.oldGrains then { s4 with segWhite := insert trace s4.segWhite }
  else s4

/-- AWLFix (poolawl.c): the fix method.  headerSize and wordSize come from
the pool's format and the platform; segBase is SegBase; alignShiftDiv is the
grain size (awlIndexOfAddr divides by it); traces is ss->traces.  Returns
the updated segment, the reference cell (*refIO) after the call, and
ss->wasMarked.  Every modelled path returns ResOK. -/
def AWLFix (headerSize grainSize wordSize segBase : Nat) (s : AWLSeg)
    (rank : Rank) (traces : TraceSet) (clientRef : Nat) :
    AWLSeg × Nat × Bool × ResCode :=
  let base := clientRef - headerSize
  if base < segBase then
    -- an ambiguous reference too close to the segment base: skip it
    (s, clientRef, true, ResCode.resOK)
  else
    let i := (base - segBase) / grainSize
    let dispatch : Unit → AWLSeg × Nat × Bool × ResCode := fun _ =>
      if !(s.mark i) then
        if rank = Rank.rankWEAK then
          (s, 0, false, ResCode.resOK)  -- splat
        else
          ({ s with mark := BTSet s.mark i, segGrey := s.segGrey ∪ traces },
           clientRef, false, ResCode.resOK)
      else (s, clientRef, true, ResCode.resOK)
    match rank with
    | Rank.rankAMBIG =>
      -- not a real pointer if not aligned or not allocated
      if !(base % wordSize = 0) || !(s.alloc i) then (s, clientRef, true, ResCode.resOK)
      else dispatch ()
    | _ => dispatch ()

/-! ## AWL reclaim (poolawl.c)

The reclaim walk: objLim gives, for an object whose head is at grain i, the
grain index of the object's limit (the C code computes it with the format's
skip method); bufSkip is the buffer's (scanLimitIndex, limitIndex) when the
segment has a buffer.  The loop is written with fuel; grains + 1 steps
always suffice because every iteration advances the index. -/

def awlReclaimLoop (objLim : Nat → Nat) (bufSkip : Option (Nat × Nat))
    (fuel : Nat) : Nat → AWLSeg → Nat → AWLSeg × Nat :=
  match fuel with
  | 0 => fun _ s reclaimed => (s, reclaimed)
  | fuel + 1 => fun i s reclaimed =>
    if i < s.grains then
      if !(s.alloc i) then awlReclaimLoop objLim bufSkip fuel (i + 1) s reclaimed
      else if (match bufSkip with
               | some (scanLimitIndex, limitIndex) =>
                 decide (i = scanLimitIndex) && decide (scanLimitIndex ≠ limitIndex)
               | none => false) then
        -- skip over the buffered area
        awlReclaimLoop objLim bufSkip fuel
          (match bufSkip with
           | some (_, limitIndex) => limitIndex
           | none => i) s reclaimed
      else
        -- one object spanning [i, j)
        let j := objLim i
        if s.mark i then
          -- AVER(BTGet(awlseg->scanned, i)); keep the object: set mark and
          -- scanned over the whole of it
          awlReclaimLoop objLim bufSkip fuel j
            { s with
              mark := BTSetRange s.mark i j
              scanned := BTSetRange s.scanned i j }
            reclaimed
        else
          -- free the object: reset mark and alloc, set scanned, credit
          awlReclaimLoop objLim bufSkip fuel j
            { s with
              mark := BTResRange s.mark i j
              scanned := BTSetRange s.scanned i j
              alloc := BTResRange s.alloc i j }
            (reclaimed + (j - i))
    else (s, reclaimed)

/-- AWLReclaim (poolawl.c): run the walk over the whole segment, then move
the reclaimed grains from old to free and remove the trace from SegWhite.
The PoolGenFree of an empty segment is external and not modelled. -/
def AWLReclaim (objLim : Nat → Nat) (bufSkip : Option (Nat × Nat))
    (trace : Nat) (s : AWLSeg) : AWLSeg :=
  let p := awlReclaimLoop objLim bufSkip (s.grains + 1) 0 s 0
  let s1 := p.1
  let reclaimedGrains := p.2
  { s1 with
    oldGrains := s1.oldGrains - reclaimedGrains
    freeGrains := s1.freeGrains + reclaimedGrains
    segWhite := s1.segWhite.erase trace }

/-! ## AWL single-access control (poolawl.c)

AWLCanTrySingleAccess, AWLNoteRefAccess, AWLNoteSegAccess, AWLNoteScan and
the counter effects of AWLAccess.  The configuration constants come from
config.h (not under src/); the spec gives AWLSegSALimit = 3 with the
per-segment limit in force, so the flags and limits are carried as explicit
configuration. -/

structure AWLConfig : Type where
  haveSegSALimit : Bool
  segSALimit : Nat
  haveTotalSALimit : Bool
  totalSALimit : Nat
deriving Repr

/-- The single-access counters: awlseg->singleAccesses (per segment) and
awl->succAccesses (per pool). -/
structure AWLAccessCounts : Type where
  singleAccesses : Nat
  succAccesses : Nat
deriving DecidableEq, Repr

/-- AWLCanTrySingleAccess (poolawl.c): permit scanning a single reference
only if the segment has weak references, a trace is flipped, the trace band
for the access is not already WEAK, and neither the per-pool nor the
per-segment access budget is exhausted. -/
def AWLCanTrySingleAccess (cfg : AWLConfig) (rankSetHasWeak : Bool)
    (flippedTracesEmpty : Bool) (accessRankWeak : Bool)
    (c : AWLAccessCounts) : Bool :=
  if !rankSetHasWeak then false
  else if flippedTracesEmpty then false
  else if accessRankWeak then false
  else if cfg.haveTotalSALimit && cfg.totalSALimit ≤ c.succAccesses then
    false  -- decline single access because of total limit
  else if cfg.haveSegSALimit && cfg.segSALimit ≤ c.singleAccesses then
    false  -- decline single access because of segment limit
  else true

/-- AWLNoteRefAccess (poolawl.c): a single-reference access increments the
segment's singleAccesses and the pool's succAccesses. -/
def AWLNoteRefAccess (c : AWLAccessCounts) : AWLAccessCounts :=
  { singleAccesses := c.singleAccesses + 1, succAccesses := c.succAccesses + 1 }

/-- AWLNoteSegAccess (poolawl.c): a whole-segment scan provoked by an access
resets the count of successive single accesses. -/
def AWLNoteSegAccess (c : AWLAccessCounts) : AWLAccessCounts :=
  { c with succAccesses := 0 }

/-- AWLNoteScan (poolawl.c): a scan not provoked by an access reinitialises
the segment's single-access count (when the segment has weak references). -/
def AWLNoteScan (rankSetHasWeak : Bool) (c : AWLAccessCounts) : AWLAccessCounts :=
  if rankSetHasWeak then { c with singleAccesses := 0 } else c

/-- AWLAccess (poolawl.c): the barrier handler's effect on the counters.
singleRes is PoolSingleAccess's outcome and segOk is PoolSegAccess's
(both external).  A successful single access notes a ref access; a ResFAIL
falls back to the segment scan, which on success notes a seg access. -/
def AWLAccess (cfg : AWLConfig) (rankSetHasWeak flippedTracesEmpty
    accessRankWeak : Bool) (singleRes : ResCode) (segOk : Bool)
    (c : AWLAccessCounts) : AWLAccessCounts × ResCode :=
  let segPath : Unit → AWLAccessCounts × ResCode := fun _ =>
    if segOk then (AWLNoteSegAccess c, ResCode.resOK) else (c, ResCode.resMEMORY)
  if AWLCanTrySingleAccess cfg rankSetHasWeak flippedTracesEmpty
      accessRankWeak c then
    match singleRes with
    | ResCode.resOK => (AWLNoteRefAccess c, ResCode.resOK)
    | ResCode.resFAIL => segPath ()  -- not all accesses can be managed singly
    | other => (c, other)
  else segPath ()

/-- n successive successful single accesses (each one an AWLAccess call
whose PoolSingleAccess succeeds). -/
def awlIterSingleAccess (cfg : AWLConfig) (rankSetHasWeak flippedTracesEmpty
    accessRankWeak : Bool) : Nat → AWLAccessCounts → AWLAccessCounts
  | 0, c => c
  | n + 1, c =>
    awlIterSingleAccess cfg rankSetHasWeak flippedTracesEmpty accessRankWeak n
      (AWLAccess cfg rankSetHasWeak flippedTracesEmpty accessRankWeak
        ResCode.resOK true c).1

/-! ## SNC pool (poolsnc.c)

Segments are identified by number; the arena knows each segment's address
range (SegOfAddr searches it).  A buffer is either reset or attached to one
segment with its base/init/alloc/limit cursors; the SNCBuf subclass adds the
chain of segments (top of stack first) and the pool holds the freelist. -/

structure SNCSegInfo : Type where
  base : Nat
  limit : Nat
deriving DecidableEq, Repr

structure SNCState : Type where
  segs : List (Nat × SNCSegInfo)  -- the arena's segments, by identifier
  freeSegs : List Nat             -- the pool's freelist (head first)
  chain : List Nat                -- the buffer's segment chain (top first)
  bufSeg : Option Nat             -- the buffer's segment, none when reset
  bufBase : Nat
  bufInit : Nat
  bufAlloc : Nat
  bufLimit : Nat
deriving DecidableEq, Repr

/-- SegOfAddr (arena, external): the segment containing the address. -/
def segOfAddr (segs : List (Nat × SNCSegInfo)) (addr : Nat) : Option Nat :=
  match segs.find? (fun p => decide (p.2.base ≤ addr) && decide (addr < p.2.limit)) with
  | some p => some p.1
  | none => none

/-- Look up a segment's info; limit 0 stands in for an unknown segment (the
C code would have faulted on it). -/
def sncSegInfo (segs : List (Nat × SNCSegInfo)) (id : Nat) : SNCSegInfo :=
  match segs.find? (fun p => p.1 = id) with
  | some p => p.2
  | none => { base := 0, limit := 0 }

/-- Modelled from the spec: BufferDetach (buffer.c, not under src/) empties
an attached buffer back to its pool (sncSegBufferEmpty pads the tail, which
has no metadata effect) and resets it; on a reset buffer it does nothing. -/
def sncBufferDetach (s : SNCState) : SNCState :=
  match s.bufSeg with
  | some _ => { s with bufSeg := none, bufBase := 0, bufInit := 0,
                       bufAlloc := 0, bufLimit := 0 }
  | none => s

/-- Modelled from the spec: BufferAttach (buffer.c, not under src/) binds
the buffer to the range [base, limit) with init at init and alloc = init
(SNC attaches with reserved size 0). -/
def sncBufferAttach (s : SNCState) (segId base limit init : Nat) : SNCState :=
  { s with bufSeg := some segId, bufBase := base, bufInit := init,
           bufAlloc := init, bufLimit := limit }

/-- sncPopPartialSegChain (poolsnc.c): pop segments from the buffer chain,
releasing each to the freelist (sncRecordFreeSeg prepends it), until upTo;
upTo becomes the chain head. -/
def sncPopSegChain (s : SNCState) (upTo : Option Nat) : SNCState :=
  match upTo with
  | none =>
    { s with chain := [],
             freeSegs := s.chain.foldl (fun acc seg => seg :: acc) s.freeSegs }
  | some target =>
    let popped := s.chain.takeWhile (fun seg => !(seg = target))
    let rest := s.chain.dropWhile (fun seg => !(seg = target))
    { s with chain := rest,
             freeSegs := popped.foldl (fun acc seg => seg :: acc) s.freeSegs }

/-- sncFindFreeSeg (poolsnc.c): detach the first freelist segment of at
least the given size. -/
def sncFindFreeSeg (s : SNCState) (size : Nat) : Option (Nat × SNCState) :=
  match s.freeSegs.find?
      (fun id => size ≤ (sncSegInfo s.segs id).limit - (sncSegInfo s.segs id).base) with
  | none => none
  | some id =>
    some (id, { s with freeSegs :=
      s.freeSegs.eraseP (fun x =>
        size ≤ (sncSegInfo s.segs x).limit - (sncSegInfo s.segs x).base) })

/-- SNCBufferFill (poolsnc.c): reuse a freelist segment of at least the
requested size, or create a new one (fresh gives the new segment's identity
and range when the arena can provide one); the segment goes onto the buffer
chain, and the buffer gets [SegBase, SegLimit).  The caller (generic
BufferFill, or SNCFramePush) attaches the buffer to the returned range. -/
def SNCBufferFill (s : SNCState) (size : Nat)
    (fresh : Option (Nat × SNCSegInfo)) : Option (Nat × Nat × Nat × SNCState) :=
  let found : Nat → SNCState → Option (Nat × Nat × Nat × SNCState) :=
    fun segId s1 =>
      let info := sncSegInfo s1.segs segId
      some (segId, info.base, info.limit,
            { s1 with chain := segId :: s1.chain })
  match sncFindFreeSeg s size with
  | some (segId, s1) => found segId s1
  | none =>
    match fresh with
    | none => none  -- SegAlloc failed
    | some (segId, info) =>
      found segId { s with segs := s.segs ++ [(segId, info)] }

/-- SNCFramePush (poolsnc.c): a reset buffer yields the NULL frame; an
attached buffer whose init is strictly below the segment limit yields init;
otherwise the buffer is refilled (detach, SNCBufferFill with one alignment,
attach at the new base) and the new init is the frame. -/
def SNCFramePush (s : SNCState) (alignment : Nat)
    (fresh : Option (Nat × SNCSegInfo)) : Option (Option Nat × SNCState) :=
  match s.bufSeg with
  | none =>
    -- AVER(sncBufferTopSeg(buf) == NULL): hypothesis of the theorems
    some (none, s)
  | some segId =>
    if s.bufInit < (sncSegInfo s.segs segId).limit then
      some (some s.bufInit, s)
    else
      let s1 := sncBufferDetach s
      match SNCBufferFill s1 alignment fresh with
      | none => none
      | some (newSeg, base, limit, s2) =>
        some (some base, sncBufferAttach s2 newSeg base limit base)

/-- SNCFramePop (poolsnc.c): the NULL frame detaches the buffer and releases
the whole chain; otherwise locate the frame's segment, and either just lower
the alloc pointer (frame in the buffer's current segment; BufferSetAllocAddr
sets init and alloc) or detach, pop the chain down to that segment and
re-attach there with init and alloc at the frame. -/
def SNCFramePop (s : SNCState) (frame : Option Nat) : SNCState :=
  match frame with
  | none => sncPopSegChain (sncBufferDetach s) none
  | some addr =>
    match segOfAddr s.segs addr with
    | none => s  -- AVER(foundSeg): unreachable under the theorems' hypotheses
    | some segId =>
      if s.bufSeg = some segId then
        -- just the alloc pointers; AVER(addr ≤ BufferScanLimit(buf))
        { s with bufInit := addr, bufAlloc := addr }
      else
        let s1 := sncPopSegChain (sncBufferDetach s) (some segId)
        let info := sncSegInfo s1.segs segId
        sncBufferAttach s1 segId info.base info.limit addr

/-! ## Pointwise facts about the tables and the nonwhite view -/

theorem BTSet_apply (bt : BT) (i k : Nat) :
    BTSet bt i k = if k = i then true else bt k := rfl

theorem BTRes_apply (bt : BT) (i k : Nat) :
    BTRes bt i k = if k = i then false else bt k := rfl

theorem BTSetRange_apply (bt : BT) (a b k : Nat) :
    BTSetRange bt a b k = if a ≤ k ∧ k < b then true else bt k := rfl

theorem BTResRange_apply (bt : BT) (a b k : Nat) :
    BTResRange bt a b k = if a ≤ k ∧ k < b then false else bt k := rfl

theorem BTCopyRange_apply (src dst : BT) (a b k : Nat) :
    BTCopyRange src dst a b k = if a ≤ k ∧ k < b then src k else dst k := rfl

theorem updNonwhite_view (ams : AMSPool) (s : AMSSeg) (f : BT → BT) :
    nonwhiteView ams (updNonwhite ams s f) = f (nonwhiteView ams s) := by
  unfold updNonwhite nonwhiteView
  cases ams.shareAllocTable <;> simp

theorem updNonwhite_nongreyBT (ams : AMSPool) (s : AMSSeg) (f : BT → BT) :
    (updNonwhite ams s f).nongreyBT = s.nongreyBT := by
  unfold updNonwhite; cases ams.shareAllocTable <;> simp

theorem updNonwhite_grains (ams : AMSPool) (s : AMSSeg) (f : BT → BT) :
    (updNonwhite ams s f).grains = s.grains := by
  unfold updNonwhite; cases ams.shareAllocTable <;> simp

theorem updNonwhite_colourTablesInUse (ams : AMSPool) (s : AMSSeg) (f : BT → BT) :
    (updNonwhite ams s f).colourTablesInUse = s.colourTablesInUse := by
  unfold updNonwhite; cases ams.shareAllocTable <;> simp

theorem updNonwhite_allocTableInUse (ams : AMSPool) (s : AMSSeg) (f : BT → BT) :
    (updNonwhite ams s f).allocTableInUse = s.allocTableInUse := by
  unfold updNonwhite; cases ams.shareAllocTable <;> simp

theorem updNonwhite_firstFree (ams : AMSPool) (s : AMSSeg) (f : BT → BT) :
    (updNonwhite ams s f).firstFree = s.firstFree := by
  unfold updNonwhite; cases ams.shareAllocTable <;> simp

/-- A write through the nonwhite view that leaves index k alone leaves the
grain's allocatedness at k alone. -/
theorem updNonwhite_alloced (ams : AMSPool) (s : AMSSeg) (f : BT → BT) (k : Nat)
    (hf : ∀ bt : BT, f bt k = bt k) :
    AMS_ALLOCED (updNonwhite ams s f) k = AMS_ALLOCED s k := by
  unfold AMS_ALLOCED updNonwhite
  cases ams.shareAllocTable <;> simp [hf]

/-! ## AMS colour validity (claim C1) -/

/-- Grain i is not both white and grey, if allocated. -/
def amsValidAt (ams : AMSPool) (s : AMSSeg) (i : Nat) : Prop :=
  AMS_ALLOCED s i = true → AMS_IS_INVALID_COLOUR ams s i = false

/-- Invariant (I2): while the colour tables are in use, no allocated grain
has the invalid (white-and-grey) colour. -/
def amsColourValid (ams : AMSPool) (s : AMSSeg) : Prop :=
  s.colourTablesInUse = true → ∀ i, i < s.grains → amsValidAt ams s i

theorem invalid_eq_false_iff (ams : AMSPool) (s : AMSSeg) (i : Nat) :
    AMS_IS_INVALID_COLOUR ams s i = false ↔
      (nonwhiteView ams s i = true ∨ s.nongreyBT i = true) := by
  unfold AMS_IS_INVALID_COLOUR AMS_IS_WHITE AMS_IS_GREY
  cases h1 : nonwhiteView ams s i <;> cases h2 : s.nongreyBT i <;> simp

theorem amsValidAt_of_nonwhite {ams : AMSPool} {s : AMSSeg} {i : Nat}
    (h : nonwhiteView ams s i = true) : amsValidAt ams s i :=
  fun _ => (invalid_eq_false_iff ams s i).mpr (Or.inl h)

theorem amsValidAt_of_nongrey {ams : AMSPool} {s : AMSSeg} {i : Nat}
    (h : s.nongreyBT i = true) : amsValidAt ams s i :=
  fun _ => (invalid_eq_false_iff ams s i).mpr (Or.inr h)

theorem amsValidAt_transfer {ams : AMSPool} {s t : AMSSeg} {i : Nat}
    (hA : AMS_ALLOCED t i = true → AMS_ALLOCED s i = true)
    (hw : nonwhiteView ams t i = nonwhiteView ams s i)
    (hg : t.nongreyBT i = s.nongreyBT i)
    (h : amsValidAt ams s i) : amsValidAt ams t i := by
  intro hat
  rw [invalid_eq_false_iff, hw, hg]
  exact (invalid_eq_false_iff ams s i).mp (h (hA hat))

/-! Step lemmas for amsSegWhiten. -/

theorem amsSegWhitenPrep_nongreyBT (ams : AMSPool) (s : AMSSeg) :
    (amsSegWhitenPrep ams s).nongreyBT = s.nongreyBT := by
  simp only [amsSegWhitenPrep]
  repeat' split
  all_goals rfl

theorem amsSegWhitenPrep_grains (ams : AMSPool) (s : AMSSeg) :
    (amsSegWhitenPrep ams s).grains = s.grains := by
  simp only [amsSegWhitenPrep]
  repeat' split
  all_goals rfl

theorem amsSegWhitenPrep_colourTablesInUse (ams : AMSPool) (s : AMSSeg) :
    (amsSegWhitenPrep ams s).colourTablesInUse = s.colourTablesInUse := by
  simp only [amsSegWhitenPrep]
  repeat' split
  all_goals rfl

theorem amsSegWhitenPrep_counters (ams : AMSPool) (s : AMSSeg) :
    (amsSegWhitenPrep ams s).freeGrains = s.freeGrains ∧
    (amsSegWhitenPrep ams s).bufferedGrains = s.bufferedGrains ∧
    (amsSegWhitenPrep ams s).newGrains = s.newGrains ∧
    (amsSegWhitenPrep ams s).oldGrains = s.oldGrains := by
  simp only [amsSegWhitenPrep]
  repeat' split
  all_goals exact ⟨rfl, rfl, rfl, rfl⟩

theorem amsSegWhitenPrep_segWhite (ams : AMSPool) (s : AMSSeg) :
    (amsSegWhitenPrep ams s).segWhite = s.segWhite := by
  simp only [amsSegWhitenPrep]
  repeat' split
  all_goals rfl

theorem amsSegRangeWhiten_nongreyBT (ams : AMSPool) (s : AMSSeg) (a b k : Nat) :
    (amsSegRangeWhiten ams s a b).nongreyBT k =
      if a ≤ k ∧ k < b then true else s.nongreyBT k := by
  unfold amsSegRangeWhiten AMS_RANGE_WHITEN
  split
  · simp [updNonwhite_nongreyBT, BTSetRange_apply]
  · rename_i h
    have hab : a = b := by omega
    subst hab
    have : ¬(a ≤ k ∧ k < a) := by omega
    simp [this]

theorem amsSegRangeWhiten_view (ams : AMSPool) (s : AMSSeg) (a b k : Nat) :
    nonwhiteView ams (amsSegRangeWhiten ams s a b) k =
      if a ≤ k ∧ k < b then false else nonwhiteView ams s k := by
  unfold amsSegRangeWhiten AMS_RANGE_WHITEN
  split
  · have hview : nonwhiteView ams
        { updNonwhite ams s (fun bt => BTResRange bt a b) with
          nongreyBT := BTSetRange
            (updNonwhite ams s (fun bt => BTResRange bt a b)).nongreyBT a b } =
        nonwhiteView ams (updNonwhite ams s (fun bt => BTResRange bt a b)) := by
      unfold nonwhiteView updNonwhite
      cases ams.shareAllocTable <;> simp
    rw [hview, updNonwhite_view]
    simp [BTResRange_apply]
  · rename_i h
    have hab : a = b := by omega
    subst hab
    have : ¬(a ≤ k ∧ k < a) := by omega
    simp [this]

theorem amsSegRangeWhiten_grains (ams : AMSPool) (s : AMSSeg) (a b : Nat) :
    (amsSegRangeWhiten ams s a b).grains = s.grains := by
  unfold amsSegRangeWhiten AMS_RANGE_WHITEN
  split
  · simp [updNonwhite_grains]
  · rfl

theorem amsSegRangeWhiten_colourTablesInUse (ams : AMSPool) (s : AMSSeg) (a b : Nat) :
    (amsSegRangeWhiten ams s a b).colourTablesInUse = s.colourTablesInUse := by
  unfold amsSegRangeWhiten AMS_RANGE_WHITEN
  split
  · simp [updNonwhite_colourTablesInUse]
  · rfl

theorem amsSegRangeWhiten_counters (ams : AMSPool) (s : AMSSeg) (a b : Nat) :
    (amsSegRangeWhiten ams s a b).freeGrains = s.freeGrains ∧
    (amsSegRangeWhiten ams s a b).bufferedGrains = s.bufferedGrains ∧
    (amsSegRangeWhiten ams s a b).newGrains = s.newGrains ∧
    (amsSegRangeWhiten ams s a b).oldGrains = s.oldGrains := by
  unfold amsSegRangeWhiten AMS_RANGE_WHITEN updNonwhite
  split
  · cases ams.shareAllocTable <;> exact ⟨rfl, rfl, rfl, rfl⟩
  · exact ⟨rfl, rfl, rfl, rfl⟩

theorem amsSegRangeWhiten_segWhite (ams : AMSPool) (s : AMSSeg) (a b : Nat) :
    (amsSegRangeWhiten ams s a b).segWhite = s.segWhite := by
  unfold amsSegRangeWhiten AMS_RANGE_WHITEN updNonwhite
  split
  · cases ams.shareAllocTable <;> rfl
  · rfl

theorem AMS_RANGE_BLACKEN_nongreyBT (ams : AMSPool) (s : AMSSeg) (a b k : Nat) :
    (AMS_RANGE_BLACKEN ams s a b).nongreyBT k =
      if a ≤ k ∧ k < b then true else s.nongreyBT k := by
  unfold AMS_RANGE_BLACKEN
  simp [updNonwhite_nongreyBT, BTSetRange_apply]

theorem AMS_RANGE_BLACKEN_view (ams : AMSPool) (s : AMSSeg) (a b k : Nat) :
    nonwhiteView ams (AMS_RANGE_BLACKEN ams s a b) k =
      if a ≤ k ∧ k < b then true else nonwhiteView ams s k := by
  unfold AMS_RANGE_BLACKEN
  have hview : nonwhiteView ams
      { updNonwhite ams s (fun bt => BTSetRange bt a b) with
        nongreyBT := BTSetRange
          (updNonwhite ams s (fun bt => BTSetRange bt a b)).nongreyBT a b } =
      nonwhiteView ams (updNonwhite ams s (fun bt => BTSetRange bt a b)) := by
    unfold nonwhiteView updNonwhite
    cases ams.shareAllocTable <;> simp
  rw [hview, updNonwhite_view]
  simp [BTSetRange_apply]

theorem AMS_RANGE_BLACKEN_grains (ams : AMSPool) (s : AMSSeg) (a b : Nat) :
    (AMS_RANGE_BLACKEN ams s a b).grains = s.grains := by
  unfold AMS_RANGE_BLACKEN
  simp [updNonwhite_grains]

theorem AMS_RANGE_BLACKEN_colourTablesInUse (ams : AMSPool) (s : AMSSeg) (a b : Nat) :
    (AMS_RANGE_BLACKEN ams s a b).colourTablesInUse = s.colourTablesInUse := by
  unfold AMS_RANGE_BLACKEN
  simp [updNonwhite_colourTablesInUse]

theorem AMS_RANGE_BLACKEN_counters (ams : AMSPool) (s : AMSSeg) (a b : Nat) :
    (AMS_RANGE_BLACKEN ams s a b).freeGrains = s.freeGrains ∧
    (AMS_RANGE_BLACKEN ams s a b).bufferedGrains = s.bufferedGrains ∧
    (AMS_RANGE_BLACKEN ams s a b).newGrains = s.newGrains ∧
    (AMS_RANGE_BLACKEN ams s a b).oldGrains = s.oldGrains := by
  unfold AMS_RANGE_BLACKEN updNonwhite
  cases ams.shareAllocTable <;> exact ⟨rfl, rfl, rfl, rfl⟩

theorem AMS_RANGE_BLACKEN_segWhite (ams : AMSPool) (s : AMSSeg) (a b : Nat) :
    (AMS_RANGE_BLACKEN ams s a b).segWhite = s.segWhite := by
  unfold AMS_RANGE_BLACKEN updNonwhite
  cases ams.shareAllocTable <;> rfl

theorem amsSegWhitenAge_nongreyBT (s : AMSSeg) (t u : Nat) :
    (amsSegWhitenAge s t u).nongreyBT = s.nongreyBT := by
  simp only [amsSegWhitenAge]
  split <;> rfl

theorem amsSegWhitenAge_view (ams : AMSPool) (s : AMSSeg) (t u : Nat) :
    nonwhiteView ams (amsSegWhitenAge s t u) = nonwhiteView ams s := by
  simp only [amsSegWhitenAge, nonwhiteView]
  repeat' split
  all_goals rfl

theorem amsSegWhitenAge_grains (s : AMSSeg) (t u : Nat) :
    (amsSegWhitenAge s t u).grains = s.grains := by
  simp only [amsSegWhitenAge]
  split <;> rfl

theorem amsSegWhitenAge_counters (s : AMSSeg) (t u : Nat) :
    (amsSegWhitenAge s t u).freeGrains = s.freeGrains ∧
    (amsSegWhitenAge s t u).bufferedGrains = u ∧
    (amsSegWhitenAge s t u).newGrains = 0 ∧
    (amsSegWhitenAge s t u).oldGrains =
      s.oldGrains + (s.bufferedGrains - u) + s.newGrains := by
  simp only [amsSegWhitenAge]
  split <;> exact ⟨rfl, rfl, rfl, rfl⟩

theorem amsSegWhitenAge_segWhite (s : AMSSeg) (t u : Nat) :
    (amsSegWhitenAge s t u).segWhite =
      if 0 < s.oldGrains + (s.bufferedGrains - u) + s.newGrains then
        insert t s.segWhite
      else s.segWhite := by
  simp only [amsSegWhitenAge]
  split <;> rename_i h <;> simp at h <;> simp [h]

theorem amsSegWhitenAge_colourTablesInUse (s : AMSSeg) (t u : Nat) :
    (amsSegWhitenAge s t u).colourTablesInUse =
      if 0 < s.oldGrains + (s.bufferedGrains - u) + s.newGrains then
        s.colourTablesInUse
      else false := by
  simp only [amsSegWhitenAge]
  split <;> rename_i h <;> simp at h <;> simp [h]

/-- amsSegWhiten with a buffer (scanLimitIndex sl, limitIndex l): the grains
below sl and from l on are white; the buffered grains [sl, l) are black. -/
theorem amsSegWhiten_buffer_colours (ams : AMSPool) (s : AMSSeg) (trace sl l : Nat)
    (hsl : sl ≤ l) (hl : l ≤ s.grains) :
    ∀ k, k < s.grains →
      ((k < sl ∨ l ≤ k) →
        nonwhiteView ams (amsSegWhiten ams s trace (some (sl, l))) k = false ∧
        (amsSegWhiten ams s trace (some (sl, l))).nongreyBT k = true) ∧
      (sl ≤ k → k < l →
        nonwhiteView ams (amsSegWhiten ams s trace (some (sl, l))) k = true ∧
        (amsSegWhiten ams s trace (some (sl, l))).nongreyBT k = true) := by
  intro k hk
  simp only [amsSegWhiten]
  rw [amsSegWhitenAge_view, amsSegWhitenAge_nongreyBT,
      amsSegRangeWhiten_view, amsSegRangeWhiten_nongreyBT]
  by_cases hmid : sl < l
  · simp only [if_pos hmid]
    rw [AMS_RANGE_BLACKEN_grains, amsSegRangeWhiten_grains,
        amsSegWhitenPrep_grains]
    rw [AMS_RANGE_BLACKEN_view, AMS_RANGE_BLACKEN_nongreyBT,
        amsSegRangeWhiten_view, amsSegRangeWhiten_nongreyBT]
    constructor
    · rintro (h | h)
      · have h1 : ¬(l ≤ k ∧ k < s.grains) := by omega
        have h2 : ¬(sl ≤ k ∧ k < l) := by omega
        have h3 : 0 ≤ k ∧ k < sl := by omega
        simp [h1, h2, h3]
      · have h1 : l ≤ k ∧ k < s.grains := by omega
        simp [h1]
    · intro h1 h2
      have h3 : ¬(l ≤ k ∧ k < s.grains) := by omega
      have h4 : sl ≤ k ∧ k < l := by omega
      simp [h3, h4]
  · simp only [if_neg hmid]
    rw [amsSegRangeWhiten_grains, amsSegWhitenPrep_grains]
    rw [amsSegRangeWhiten_view, amsSegRangeWhiten_nongreyBT]
    constructor
    · rintro (h | h)
      · have h1 : ¬(l ≤ k ∧ k < s.grains) := by omega
        have h3 : 0 ≤ k ∧ k < sl := by omega
        simp [h1, h3]
      · have h1 : l ≤ k ∧ k < s.grains := by omega
        simp [h1]
    · intro h1 h2
      omega

/-- amsSegWhiten without a buffer: the whole segment is condemned white. -/
theorem amsSegWhiten_none_colours (ams : AMSPool) (s : AMSSeg) (trace : Nat) :
    ∀ k, k < s.grains →
      nonwhiteView ams (amsSegWhiten ams s trace none) k = false ∧
      (amsSegWhiten ams s trace none).nongreyBT k = true := by
  intro k hk
  simp only [amsSegWhiten]
  rw [amsSegWhitenAge_view, amsSegWhitenAge_nongreyBT,
      amsSegRangeWhiten_view, amsSegRangeWhiten_nongreyBT]
  rw [amsSegWhitenPrep_grains]
  have h1 : 0 ≤ k ∧ k < s.grains := by omega
  simp [h1]

theorem amsSegWhiten_grains (ams : AMSPool) (s : AMSSeg) (trace : Nat)
    (buffer : Option (Nat × Nat)) :
    (amsSegWhiten ams s trace buffer).grains = s.grains := by
  rcases buffer with _ | ⟨sl, l⟩
  · simp only [amsSegWhiten]
    rw [amsSegWhitenAge_grains, amsSegRangeWhiten_grains, amsSegWhitenPrep_grains]
  · simp only [amsSegWhiten]
    rw [amsSegWhitenAge_grains, amsSegRangeWhiten_grains]
    split
    · rw [AMS_RANGE_BLACKEN_grains, amsSegRangeWhiten_grains,
          amsSegWhitenPrep_grains]
    · rw [amsSegRangeWhiten_grains, amsSegWhitenPrep_grains]

/-! Colour validity of the colour-changing primitives. -/

theorem colourValid_WHITE_BLACKEN (ams : AMSPool) (s : AMSSeg) (a b : Nat)
    (h : amsColourValid ams s) :
    amsColourValid ams (AMS_RANGE_WHITE_BLACKEN ams s a b) := by
  intro hct i hi
  unfold AMS_RANGE_WHITE_BLACKEN at *
  rw [updNonwhite_colourTablesInUse] at hct
  rw [updNonwhite_grains] at hi
  by_cases hin : a ≤ i ∧ i < b
  · apply amsValidAt_of_nonwhite
    rw [updNonwhite_view]
    simp [BTSetRange_apply, hin]
  · refine amsValidAt_transfer ?_ ?_ ?_ (h hct i hi)
    · intro hA
      rwa [updNonwhite_alloced ams s _ i (fun bt => by simp [BTSetRange_apply, hin])]
        at hA
    · rw [updNonwhite_view]; simp [BTSetRange_apply, hin]
    · rw [updNonwhite_nongreyBT]

theorem colourValid_RANGE_BLACKEN (ams : AMSPool) (s : AMSSeg) (a b : Nat)
    (h : amsColourValid ams s) :
    amsColourValid ams (AMS_RANGE_BLACKEN ams s a b) := by
  intro hct i hi
  have hct' : s.colourTablesInUse = true := by
    rw [← AMS_RANGE_BLACKEN_colourTablesInUse ams s a b]; exact hct
  rw [AMS_RANGE_BLACKEN_grains] at hi
  by_cases hin : a ≤ i ∧ i < b
  · apply amsValidAt_of_nonwhite
    rw [AMS_RANGE_BLACKEN_view]
    simp [hin]
  · refine amsValidAt_transfer ?_ ?_ ?_ (h hct' i hi)
    · intro hA
      unfold AMS_RANGE_BLACKEN at hA
      have : AMS_ALLOCED
          { updNonwhite ams s (fun bt => BTSetRange bt a b) with
            nongreyBT := BTSetRange
              (updNonwhite ams s (fun bt => BTSetRange bt a b)).nongreyBT a b } =
          AMS_ALLOCED (updNonwhite ams s (fun bt => BTSetRange bt a b)) := rfl
      rw [this] at hA
      rwa [updNonwhite_alloced ams s _ i (fun bt => by simp [BTSetRange_apply, hin])]
        at hA
    · rw [AMS_RANGE_BLACKEN_view]; simp [hin]
    · rw [AMS_RANGE_BLACKEN_nongreyBT]; simp [hin]

theorem colourValid_GREY_BLACKEN (ams : AMSPool) (s : AMSSeg) (i0 : Nat)
    (h : amsColourValid ams s) :
    amsColourValid ams (AMS_GREY_BLACKEN s i0) := by
  intro hct i hi
  have hct' : s.colourTablesInUse = true := hct
  have hi' : i < s.grains := hi
  by_cases hin : i = i0
  · subst hin
    apply amsValidAt_of_nongrey
    unfold AMS_GREY_BLACKEN
    simp [BTSet_apply]
  · refine amsValidAt_transfer ?_ ?_ ?_ (h hct' i hi')
    · intro hA; exact hA
    · rfl
    · unfold AMS_GREY_BLACKEN; simp [BTSet_apply, hin]

theorem colourValid_WHITE_GREYEN (ams : AMSPool) (s : AMSSeg) (i0 : Nat)
    (h : amsColourValid ams s) :
    amsColourValid ams (AMS_WHITE_GREYEN ams s i0) := by
  intro hct i hi
  unfold AMS_WHITE_GREYEN at *
  have hview : nonwhiteView ams
      { updNonwhite ams s (fun bt => BTSet bt i0) with
        nongreyBT := BTRes (updNonwhite ams s (fun bt => BTSet bt i0)).nongreyBT i0 } =
      nonwhiteView ams (updNonwhite ams s (fun bt => BTSet bt i0)) := rfl
  have hallo : AMS_ALLOCED
      { updNonwhite ams s (fun bt => BTSet bt i0) with
        nongreyBT := BTRes (updNonwhite ams s (fun bt => BTSet bt i0)).nongreyBT i0 } =
      AMS_ALLOCED (updNonwhite ams s (fun bt => BTSet bt i0)) := rfl
  have hct' : s.colourTablesInUse = true := by
    have : (updNonwhite ams s (fun bt => BTSet bt i0)).colourTablesInUse =
        s.colourTablesInUse := updNonwhite_colourTablesInUse ams s _
    rw [← this]; exact hct
  have hi' : i < s.grains := by
    have : (updNonwhite ams s (fun bt => BTSet bt i0)).grains = s.grains :=
      updNonwhite_grains ams s _
    rw [← this]; exact hi
  by_cases hin : i = i0
  · subst hin
    apply amsValidAt_of_nonwhite
    rw [hview, updNonwhite_view]
    simp [BTSet_apply]
  · refine amsValidAt_transfer ?_ ?_ ?_ (h hct' i hi')
    · intro hA
      rw [hallo] at hA
      rwa [updNonwhite_alloced ams s _ i (fun bt => by simp [BTSet_apply, hin])]
        at hA
    · rw [hview, updNonwhite_view]; simp [BTSet_apply, hin]
    · show BTRes (updNonwhite ams s (fun bt => BTSet bt i0)).nongreyBT i0 i =
        s.nongreyBT i
      rw [updNonwhite_nongreyBT]
      simp [BTRes_apply, hin]

/-! Colour validity of the AMS operations. -/

theorem amsSegWhiten_colourValid_none (ams : AMSPool) (s : AMSSeg) (trace : Nat) :
    amsColourValid ams (amsSegWhiten ams s trace none) := by
  intro _ i hi
  rw [amsSegWhiten_grains] at hi
  exact amsValidAt_of_nongrey (amsSegWhiten_none_colours ams s trace i hi).2

theorem amsSegWhiten_colourValid_buffer (ams : AMSPool) (s : AMSSeg)
    (trace sl l : Nat) (hsl : sl ≤ l) (hl : l ≤ s.grains) :
    amsColourValid ams (amsSegWhiten ams s trace (some (sl, l))) := by
  intro _ i hi
  rw [amsSegWhiten_grains] at hi
  apply amsValidAt_of_nongrey
  have hch := amsSegWhiten_buffer_colours ams s trace sl l hsl hl i hi
  by_cases hmid : sl ≤ i ∧ i < l
  · exact (hch.2 hmid.1 hmid.2).2
  · exact (hch.1 (by omega)).2

theorem amsSegFix_colourValid (ams : AMSPool) (segBase : Nat) (skipFn : Nat → Nat)
    (segRankSetEmpty : Bool) (s : AMSSeg) (rank : Rank) (traces : TraceSet)
    (clientRef : Nat) (h : amsColourValid ams s) :
    amsColourValid ams
      (amsSegFix ams segBase skipFn segRankSetEmpty s rank traces clientRef).1 := by
  simp only [amsSegFix]
  split
  · exact h
  split
  · exact h
  split
  · exact h
  have hdisp : ∀ s0 : AMSSeg, amsColourValid ams s0 →
      amsColourValid ams
        ((if AMS_IS_WHITE ams s0 ((clientRef - ams.headerSize - segBase) / ams.alignment) then
            if rank = Rank.rankWEAK then (s0, 0, ResCode.resOK)
            else if segRankSetEmpty && !(rank = Rank.rankAMBIG) then
              (AMS_RANGE_WHITE_BLACKEN ams s0
                ((clientRef - ams.headerSize - segBase) / ams.alignment)
                ((skipFn clientRef - ams.headerSize - segBase) / ams.alignment),
               clientRef, ResCode.resOK)
            else
              ({ AMS_WHITE_GREYEN ams s0
                   ((clientRef - ams.headerSize - segBase) / ams.alignment) with
                 segGrey := (AMS_WHITE_GREYEN ams s0
                   ((clientRef - ams.headerSize - segBase) / ams.alignment)).segGrey
                   ∪ traces
                 marksChanged := true }, clientRef, ResCode.resOK)
          else (s0, clientRef, ResCode.resOK)).1 : AMSSeg) := by
    intro s0 h0
    split
    · split
      · exact h0
      split
      · exact colourValid_WHITE_BLACKEN ams s0 _ _ h0
      · exact colourValid_WHITE_GREYEN ams s0 _ h0
    · exact h0
  cases rank with
  | rankAMBIG =>
    simp only []
    split
    · exact h
    · exact hdisp { s with ambiguousFixes := true } h
  | rankEXACT => exact hdisp s h
  | rankFINAL => exact hdisp s h
  | rankWEAK => exact hdisp s h

theorem amsScanObjectColour_colourValid (ams : AMSPool) (s : AMSSeg)
    (scanAllObjects : Bool) (i j : Nat) (h : amsColourValid ams s) :
    amsColourValid ams (amsScanObjectColour ams s scanAllObjects i j) := by
  unfold amsScanObjectColour
  split
  · split
    · split
      · exact colourValid_WHITE_BLACKEN ams _ _ _ (colourValid_GREY_BLACKEN ams s i h)
      · exact colourValid_GREY_BLACKEN ams s i h
    · exact h
  · exact h

theorem amsSegBlackenObject_colourValid (ams : AMSPool) (s : AMSSeg) (i j : Nat)
    (h : amsColourValid ams s) :
    amsColourValid ams (amsSegBlackenObject ams s i j) := by
  unfold amsSegBlackenObject
  split
  · split
    · exact colourValid_RANGE_BLACKEN ams _ _ _ (colourValid_GREY_BLACKEN ams s i h)
    · exact colourValid_GREY_BLACKEN ams s i h
  · exact h

theorem amsSegReclaim_colourValid (ams : AMSPool) (s : AMSSeg) (trace : Nat) :
    amsColourValid ams (amsSegReclaim ams s trace) := by
  intro hct
  exfalso
  simp [amsSegReclaim] at hct

/-! Sample states, used by the witnesses. -/

def sampleAMSPool : AMSPool := { shareAllocTable := false, alignment := 1, headerSize := 0 }

def sampleAMSSeg : AMSSeg where
  grains := 2
  freeGrains := 1
  bufferedGrains := 0
  newGrains := 1
  oldGrains := 0
  allocBT := fun k => decide (k < 1)
  nongreyBT := fun _ => true
  nonwhiteBT := fun _ => true
  allocTableInUse := true
  firstFree := 0
  colourTablesInUse := false
  marksChanged := false
  ambiguousFixes := false
  segWhite := ∅
  segGrey := ∅

/-- C1: while an AMS segment's colour tables are in use, no allocated grain
is simultaneously white and grey (invalid colour): whitening establishes the
invariant, and fixing, scanning, blackening and reclaiming preserve it, so
each allocated grain is exactly one of white, grey or black. -/
theorem C1_ams_colour_validity :
    (∀ (ams : AMSPool) (s : AMSSeg) (trace : Nat),
      amsColourValid ams (amsSegWhiten ams s trace none)) ∧
    (∀ (ams : AMSPool) (s : AMSSeg) (trace sl l : Nat), sl ≤ l → l ≤ s.grains →
      amsColourValid ams (amsSegWhiten ams s trace (some (sl, l)))) ∧
    (∀ (ams : AMSPool) (segBase : Nat) (skipFn : Nat → Nat)
      (segRankSetEmpty : Bool) (s : AMSSeg) (rank : Rank) (traces : TraceSet)
      (clientRef : Nat), amsColourValid ams s →
      amsColourValid ams
        (amsSegFix ams segBase skipFn segRankSetEmpty s rank traces clientRef).1) ∧
    (∀ (ams : AMSPool) (s : AMSSeg) (scanAllObjects : Bool) (i j : Nat),
      amsColourValid ams s →
      amsColourValid ams (amsScanObjectColour ams s scanAllObjects i j)) ∧
    (∀ (ams : AMSPool) (s : AMSSeg) (i j : Nat), amsColourValid ams s →
      amsColourValid ams (amsSegBlackenObject ams s i j)) ∧
    (∀ (ams : AMSPool) (s : AMSSeg) (trace : Nat),
      amsColourValid ams (amsSegReclaim ams s trace)) :=
  ⟨amsSegWhiten_colourValid_none,
   amsSegWhiten_colourValid_buffer,
   amsSegFix_colourValid,
   amsScanObjectColour_colourValid,
   amsSegBlackenObject_colourValid,
   amsSegReclaim_colourValid⟩

/-- C1 witness: the invariant statements at a concrete pool and segment. -/
theorem C1_ams_colour_validity_witness :
    amsColourValid sampleAMSPool (amsSegWhiten sampleAMSPool sampleAMSSeg 0 none) ∧
    amsColourValid sampleAMSPool
      (amsSegWhiten sampleAMSPool sampleAMSSeg 0 (some (1, 2))) ∧
    amsColourValid sampleAMSPool
      (amsSegFix sampleAMSPool 0 (fun a => a + 1) false sampleAMSSeg
        Rank.rankEXACT ∅ 0).1 ∧
    amsColourValid sampleAMSPool
      (amsScanObjectColour sampleAMSPool sampleAMSSeg false 0 1) ∧
    amsColourValid sampleAMSPool (amsSegBlackenObject sampleAMSPool sampleAMSSeg 0 1) ∧
    amsColourValid sampleAMSPool (amsSegReclaim sampleAMSPool sampleAMSSeg 0) :=
  ⟨C1_ams_colour_validity.1 sampleAMSPool sampleAMSSeg 0,
   C1_ams_colour_validity.2.1 sampleAMSPool sampleAMSSeg 0 1 2 (by decide) (by decide),
   C1_ams_colour_validity.2.2.1 sampleAMSPool 0 (fun a => a + 1) false sampleAMSSeg
     Rank.rankEXACT ∅ 0 (fun hct => absurd hct (by decide)),
   C1_ams_colour_validity.2.2.2.1 sampleAMSPool sampleAMSSeg false 0 1
     (fun hct => absurd hct (by decide)),
   C1_ams_colour_validity.2.2.2.2.1 sampleAMSPool sampleAMSSeg 0 1
     (fun hct => absurd hct (by decide)),
   C1_ams_colour_validity.2.2.2.2.2 sampleAMSPool sampleAMSSeg 0⟩

/-! ## Grain partition (claim C2) -/

/-- Invariant (I1) for AMS segments. -/
def amsPartition (s : AMSSeg) : Prop :=
  s.freeGrains + s.bufferedGrains + s.newGrains + s.oldGrains = s.grains

/-- Invariant (I1) for AWL segments. -/
def awlPartition (s : AWLSeg) : Prop :=
  s.freeGrains + s.bufferedGrains + s.newGrains + s.oldGrains = s.grains

theorem AMS_RANGE_WHITEN_counters (ams : AMSPool) (s : AMSSeg) (a b : Nat) :
    (AMS_RANGE_WHITEN ams s a b).freeGrains = s.freeGrains ∧
    (AMS_RANGE_WHITEN ams s a b).bufferedGrains = s.bufferedGrains ∧
    (AMS_RANGE_WHITEN ams s a b).newGrains = s.newGrains ∧
    (AMS_RANGE_WHITEN ams s a b).oldGrains = s.oldGrains ∧
    (AMS_RANGE_WHITEN ams s a b).grains = s.grains := by
  unfold AMS_RANGE_WHITEN updNonwhite
  cases ams.shareAllocTable <;> exact ⟨rfl, rfl, rfl, rfl, rfl⟩

theorem amsSegBufferFillFound_partition (s : AMSSeg) (bi li : Nat)
    (hle : li - bi ≤ s.freeGrains) (hp : amsPartition s) :
    amsPartition (amsSegBufferFillFound s bi li) := by
  unfold amsPartition at *
  unfold amsSegBufferFillFound
  split <;> simp <;> omega

theorem amsSegBufferFill_partition (s : AMSSeg) (requestedGrains : Nat)
    (hasBuffer whiteOrGrey rankMatches : Bool)
    (btFind : BT → Nat → Nat → Nat → Option (Nat × Nat))
    (s' : AMSSeg) (bi li : Nat)
    (heq : amsSegBufferFill s requestedGrains hasBuffer whiteOrGrey rankMatches
      btFind = some (s', bi, li))
    (hle : li - bi ≤ s.freeGrains) (hp : amsPartition s) : amsPartition s' := by
  unfold amsSegBufferFill at heq
  by_cases h1 : s.freeGrains < requestedGrains
  · rw [if_pos h1] at heq; cases heq
  rw [if_neg h1] at heq
  by_cases h2 : hasBuffer = true
  · rw [if_pos h2] at heq; cases heq
  rw [if_neg h2] at heq
  by_cases h3 : whiteOrGrey = true
  · rw [if_pos h3] at heq; cases heq
  rw [if_neg h3] at heq
  by_cases h4 : (!rankMatches) = true
  · rw [if_pos h4] at heq; cases heq
  rw [if_neg h4] at heq
  simp only [] at heq
  by_cases h5 : s.freeGrains = s.grains
  · rw [if_pos h5] at heq
    simp only [Option.some.injEq, Prod.mk.injEq] at heq
    obtain ⟨hA, hB, hC⟩ := heq
    subst hB; subst hC
    exact hA ▸ amsSegBufferFillFound_partition s _ _ hle hp
  rw [if_neg h5] at heq
  by_cases h6 : s.allocTableInUse = true
  · rw [if_pos h6] at heq
    rcases hbt : btFind s.allocBT 0 s.grains requestedGrains with _ | ⟨b0, l0⟩
    · rw [hbt] at heq; cases heq
    · rw [hbt] at heq
      simp only [Option.some.injEq, Prod.mk.injEq] at heq
      obtain ⟨hA, hB, hC⟩ := heq
      subst hB; subst hC
      exact hA ▸ amsSegBufferFillFound_partition s _ _ hle hp
  rw [if_neg h6] at heq
  by_cases h7 : s.firstFree > s.grains - requestedGrains
  · rw [if_pos h7] at heq; cases heq
  rw [if_neg h7] at heq
  simp only [Option.some.injEq, Prod.mk.injEq] at heq
  obtain ⟨hA, hB, hC⟩ := heq
  subst hB; subst hC
  exact hA ▸ amsSegBufferFillFound_partition s _ _ hle hp

theorem amsSegBufferEmptyTables_counters (ams : AMSPool) (s : AMSSeg) (i l : Nat) :
    (amsSegBufferEmptyTables ams s i l).freeGrains = s.freeGrains ∧
    (amsSegBufferEmptyTables ams s i l).bufferedGrains = s.bufferedGrains ∧
    (amsSegBufferEmptyTables ams s i l).newGrains = s.newGrains ∧
    (amsSegBufferEmptyTables ams s i l).oldGrains = s.oldGrains ∧
    (amsSegBufferEmptyTables ams s i l).grains = s.grains := by
  simp only [amsSegBufferEmptyTables]
  repeat' split
  all_goals
    first
    | exact ⟨rfl, rfl, rfl, rfl, rfl⟩
    | exact AMS_RANGE_WHITEN_counters ams _ i l

theorem amsSegBufferEmpty_counters (ams : AMSPool) (s : AMSSeg) (i l : Nat) :
    (amsSegBufferEmpty ams s i l).freeGrains = s.freeGrains + (l - i) ∧
    (amsSegBufferEmpty ams s i l).bufferedGrains = 0 ∧
    (amsSegBufferEmpty ams s i l).newGrains =
      s.newGrains + (s.bufferedGrains - (l - i)) ∧
    (amsSegBufferEmpty ams s i l).oldGrains = s.oldGrains ∧
    (amsSegBufferEmpty ams s i l).grains = s.grains := by
  obtain ⟨c1, c2, c3, c4, c5⟩ := amsSegBufferEmptyTables_counters ams s i l
  simp only [amsSegBufferEmpty]
  exact ⟨by simp [c1], by simp, by simp [c2, c3], by simp [c4], by simp [c5]⟩

theorem amsSegBufferEmpty_partition (ams : AMSPool) (s : AMSSeg) (i l : Nat)
    (hle : l - i ≤ s.bufferedGrains) (hp : amsPartition s) :
    amsPartition (amsSegBufferEmpty ams s i l) := by
  obtain ⟨c1, c2, c3, c4, c5⟩ := amsSegBufferEmpty_counters ams s i l
  unfold amsPartition at *
  rw [c1, c2, c3, c4, c5]
  omega

theorem amsSegWhiten_counters (ams : AMSPool) (s : AMSSeg) (trace : Nat)
    (buffer : Option (Nat × Nat)) :
    (amsSegWhiten ams s trace buffer).freeGrains = s.freeGrains ∧
    (amsSegWhiten ams s trace buffer).bufferedGrains =
      (match buffer with
       | some (sl, l) => l - sl
       | none => 0) ∧
    (amsSegWhiten ams s trace buffer).newGrains = 0 ∧
    (amsSegWhiten ams s trace buffer).oldGrains =
      s.oldGrains + (s.bufferedGrains -
        (match buffer with
         | some (sl, l) => l - sl
         | none => 0)) + s.newGrains := by
  rcases buffer with _ | ⟨sl, l⟩
  · simp only [amsSegWhiten]
    obtain ⟨a1, a2, a3, a4⟩ := amsSegWhitenAge_counters
      (amsSegRangeWhiten ams (amsSegWhitenPrep ams { s with colourTablesInUse := true })
        0 (amsSegWhitenPrep ams { s with colourTablesInUse := true }).grains) trace 0
    obtain ⟨b1, b2, b3, b4⟩ := amsSegRangeWhiten_counters ams
      (amsSegWhitenPrep ams { s with colourTablesInUse := true })
      0 (amsSegWhitenPrep ams { s with colourTablesInUse := true }).grains
    obtain ⟨p1, p2, p3, p4⟩ :=
      amsSegWhitenPrep_counters ams { s with colourTablesInUse := true }
    refine ⟨?_, ?_, ?_, ?_⟩ <;>
      simp [a1, a2, a3, a4, b1, b2, b3, b4, p1, p2, p3, p4]
  · simp only [amsSegWhiten]
    set s3 := amsSegWhitenPrep ams { s with colourTablesInUse := true } with hs3
    set s4 := amsSegRangeWhiten ams s3 0 sl with hs4
    set s5 := (if sl < l then AMS_RANGE_BLACKEN ams s4 sl l else s4) with hs5
    obtain ⟨a1, a2, a3, a4⟩ := amsSegWhitenAge_counters
      (amsSegRangeWhiten ams s5 l s5.grains) trace (l - sl)
    obtain ⟨b1, b2, b3, b4⟩ := amsSegRangeWhiten_counters ams s5 l s5.grains
    have h5 : s5.freeGrains = s4.freeGrains ∧ s5.bufferedGrains = s4.bufferedGrains ∧
        s5.newGrains = s4.newGrains ∧ s5.oldGrains = s4.oldGrains := by
      rw [hs5]
      split
      · obtain ⟨x1, x2, x3, x4⟩ := AMS_RANGE_BLACKEN_counters ams s4 sl l
        exact ⟨x1, x2, x3, x4⟩
      · exact ⟨rfl, rfl, rfl, rfl⟩
    obtain ⟨e1, e2, e3, e4⟩ := h5
    obtain ⟨f1, f2, f3, f4⟩ := amsSegRangeWhiten_counters ams s3 0 sl
    obtain ⟨p1, p2, p3, p4⟩ :=
      amsSegWhitenPrep_counters ams { s with colourTablesInUse := true }
    refine ⟨?_, ?_, ?_, ?_⟩ <;>
      simp [a1, a2, a3, a4, b1, b2, b3, b4, e1, e2, e3, e4, f1, f2, f3, f4,
        hs4, hs3, p1, p2, p3, p4]

theorem amsSegWhiten_partition (ams : AMSPool) (s : AMSSeg) (trace : Nat)
    (buffer : Option (Nat × Nat))
    (hle : (match buffer with
            | some (sl, l) => l - sl
            | none => 0) ≤ s.bufferedGrains)
    (hp : amsPartition s) : amsPartition (amsSegWhiten ams s trace buffer) := by
  obtain ⟨c1, c2, c3, c4⟩ := amsSegWhiten_counters ams s trace buffer
  unfold amsPartition at *
  rw [c1, c2, c3, c4, amsSegWhiten_grains]
  rcases buffer with _ | ⟨sl, l⟩ <;> simp at hle ⊢ <;> omega

theorem amsSegReclaim_counters (ams : AMSPool) (s : AMSSeg) (trace : Nat) :
    (amsSegReclaim ams s trace).freeGrains =
      s.freeGrains + (BTCountResRange (nonwhiteView ams s) 0 s.grains - s.freeGrains) ∧
    (amsSegReclaim ams s trace).oldGrains =
      s.oldGrains - (BTCountResRange (nonwhiteView ams s) 0 s.grains - s.freeGrains) ∧
    (amsSegReclaim ams s trace).bufferedGrains = s.bufferedGrains ∧
    (amsSegReclaim ams s trace).newGrains = s.newGrains ∧
    (amsSegReclaim ams s trace).grains = s.grains := by
  simp only [amsSegReclaim]
  repeat' split
  all_goals exact ⟨rfl, rfl, rfl, rfl, rfl⟩

theorem amsSegReclaim_partition (ams : AMSPool) (s : AMSSeg) (trace : Nat)
    (hfree : s.freeGrains ≤ BTCountResRange (nonwhiteView ams s) 0 s.grains)
    (hold : BTCountResRange (nonwhiteView ams s) 0 s.grains - s.freeGrains ≤
      s.oldGrains)
    (hp : amsPartition s) : amsPartition (amsSegReclaim ams s trace) := by
  obtain ⟨c1, c2, c3, c4, c5⟩ := amsSegReclaim_counters ams s trace
  unfold amsPartition at *
  rw [c1, c2, c3, c4, c5]
  omega

theorem AMSSegSplit_partition (s : AMSSeg) (loGrains hiGrains : Nat)
    (fLo fHi : TablePack) (segWhiteHi segGreyHi : TraceSet)
    (hgr : loGrains + hiGrains = s.grains) (hfree : hiGrains ≤ s.freeGrains)
    (hp : amsPartition s) :
    amsPartition (AMSSegSplit s loGrains hiGrains fLo fHi segWhiteHi segGreyHi).1 ∧
    amsPartition (AMSSegSplit s loGrains hiGrains fLo fHi segWhiteHi segGreyHi).2 := by
  unfold amsPartition at *
  unfold AMSSegSplit
  simp
  omega

theorem AMSSegMerge_partition (sLo sHi : AMSSeg) (f : TablePack)
    (hpLo : amsPartition sLo) (hpHi : amsPartition sHi) :
    amsPartition (AMSSegMerge sLo sHi f) := by
  unfold amsPartition at *
  unfold AMSSegMerge
  simp
  omega

theorem AMSSegInit_partition (grains : Nat) (a b c : BT) :
    amsPartition (AMSSegInit grains a b c) := by
  unfold amsPartition AMSSegInit
  simp

/-! AWL counterparts. -/

theorem AWLSegInit_partition (grains : Nat) : awlPartition (AWLSegInit grains) := by
  unfold awlPartition AWLSegInit
  simp

theorem AWLBufferFillFound_partition (s : AWLSeg) (i j : Nat)
    (hle : j - i ≤ s.freeGrains) (hp : awlPartition s) :
    awlPartition (AWLBufferFillFound s i j) := by
  unfold awlPartition at *
  unfold AWLBufferFillFound
  simp
  omega

theorem AWLBufferEmpty_partition (s : AWLSeg) (i j : Nat)
    (hle : j - i ≤ s.bufferedGrains) (hp : awlPartition s) :
    awlPartition (AWLBufferEmpty s i j) := by
  unfold awlPartition at *
  unfold AWLBufferEmpty
  split <;> simp <;> omega

theorem awlRangeWhiten_scalars (s : AWLSeg) (a b : Nat) :
    (awlRangeWhiten s a b).grains = s.grains ∧
    (awlRangeWhiten s a b).freeGrains = s.freeGrains ∧
    (awlRangeWhiten s a b).bufferedGrains = s.bufferedGrains ∧
    (awlRangeWhiten s a b).newGrains = s.newGrains ∧
    (awlRangeWhiten s a b).oldGrains = s.oldGrains ∧
    (awlRangeWhiten s a b).alloc = s.alloc ∧
    (awlRangeWhiten s a b).segWhite = s.segWhite := by
  unfold awlRangeWhiten
  split <;> exact ⟨rfl, rfl, rfl, rfl, rfl, rfl, rfl⟩

theorem AWLWhiten_counters (s : AWLSeg) (trace : Nat)
    (buffer : Option (Nat × Nat)) :
    (AWLWhiten s trace buffer).grains = s.grains ∧
    (AWLWhiten s trace buffer).freeGrains = s.freeGrains ∧
    (AWLWhiten s trace buffer).bufferedGrains =
      (match buffer with
       | some (sl, l) => l - sl
       | none => 0) ∧
    (AWLWhiten s trace buffer).newGrains = 0 ∧
    (AWLWhiten s trace buffer).oldGrains =
      s.oldGrains + (s.bufferedGrains -
        (match buffer with
         | some (sl, l) => l - sl
         | none => 0)) + s.newGrains := by
  rcases buffer with _ | ⟨sl, l⟩
  · obtain ⟨w1, w2, w3, w4, w5, _, _⟩ := awlRangeWhiten_scalars s 0 s.grains
    simp only [AWLWhiten]
    split <;> simp [w1, w2, w3, w4, w5]
  · obtain ⟨w1, w2, w3, w4, w5, _, _⟩ := awlRangeWhiten_scalars s 0 sl
    obtain ⟨x1, x2, x3, x4, x5, _, _⟩ :=
      awlRangeWhiten_scalars (awlRangeWhiten s 0 sl) l s.grains
    simp only [AWLWhiten]
    split <;> simp [w1, w2, w3, w4, w5, x1, x2, x3, x4, x5]

theorem AWLWhiten_partition (s : AWLSeg) (trace : Nat)
    (buffer : Option (Nat × Nat))
    (hle : (match buffer with
            | some (sl, l) => l - sl
            | none => 0) ≤ s.bufferedGrains)
    (hp : awlPartition s) : awlPartition (AWLWhiten s trace buffer) := by
  obtain ⟨c0, c1, c2, c3, c4⟩ := AWLWhiten_counters s trace buffer
  unfold awlPartition at *
  rw [c0, c1, c2, c3, c4]
  rcases buffer with _ | ⟨sl, l⟩ <;> simp at hle ⊢ <;> omega

theorem awlReclaimLoop_scalars (objLim : Nat → Nat) (bufSkip : Option (Nat × Nat)) :
    ∀ (fuel i : Nat) (s : AWLSeg) (r : Nat),
      (awlReclaimLoop objLim bufSkip fuel i s r).1.grains = s.grains ∧
      (awlReclaimLoop objLim bufSkip fuel i s r).1.freeGrains = s.freeGrains ∧
      (awlReclaimLoop objLim bufSkip fuel i s r).1.bufferedGrains = s.bufferedGrains ∧
      (awlReclaimLoop objLim bufSkip fuel i s r).1.newGrains = s.newGrains ∧
      (awlReclaimLoop objLim bufSkip fuel i s r).1.oldGrains = s.oldGrains ∧
      (awlReclaimLoop objLim bufSkip fuel i s r).1.segWhite = s.segWhite ∧
      (awlReclaimLoop objLim bufSkip fuel i s r).1.segGrey = s.segGrey := by
  intro fuel
  induction fuel with
  | zero => intro i s r; exact ⟨rfl, rfl, rfl, rfl, rfl, rfl, rfl⟩
  | succ n ih =>
    intro i s r
    simp only [awlReclaimLoop]
    split
    · split
      · exact ih (i + 1) s r
      · split
        · exact ih _ s r
        · split
          · exact ih _ _ _
          · exact ih _ _ _
    · exact ⟨rfl, rfl, rfl, rfl, rfl, rfl, rfl⟩

theorem AWLReclaim_partition (objLim : Nat → Nat) (bufSkip : Option (Nat × Nat))
    (trace : Nat) (s : AWLSeg)
    (hold : (awlReclaimLoop objLim bufSkip (s.grains + 1) 0 s 0).2 ≤ s.oldGrains)
    (hp : awlPartition s) : awlPartition (AWLReclaim objLim bufSkip trace s) := by
  obtain ⟨c0, c1, c2, c3, c4, _, _⟩ :=
    awlReclaimLoop_scalars objLim bufSkip (s.grains + 1) 0 s 0
  unfold awlPartition at *
  unfold AWLReclaim
  simp [c0, c1, c2, c3, c4]
  omega

/-- C2: the grain partition invariant (I1), freeGrains + bufferedGrains +
newGrains + oldGrains = grains, holds after segment init and is preserved by
buffer fill, buffer empty, whiten and reclaim on both AMS and AWL segments,
and by AMS segment split (both halves) and merge; the side conditions are
the code's own AVERs. -/
theorem C2_grain_partition :
    (∀ (grains : Nat) (a b c : BT), amsPartition (AMSSegInit grains a b c)) ∧
    (∀ (s : AMSSeg) (requestedGrains : Nat)
      (hasBuffer whiteOrGrey rankMatches : Bool)
      (btFind : BT → Nat → Nat → Nat → Option (Nat × Nat))
      (s' : AMSSeg) (bi li : Nat),
      amsSegBufferFill s requestedGrains hasBuffer whiteOrGrey rankMatches
        btFind = some (s', bi, li) →
      li - bi ≤ s.freeGrains → amsPartition s → amsPartition s') ∧
    (∀ (ams : AMSPool) (s : AMSSeg) (i l : Nat),
      l - i ≤ s.bufferedGrains → amsPartition s →
      amsPartition (amsSegBufferEmpty ams s i l)) ∧
    (∀ (ams : AMSPool) (s : AMSSeg) (trace : Nat) (buffer : Option (Nat × Nat)),
      (match buffer with
       | some (sl, l) => l - sl
       | none => 0) ≤ s.bufferedGrains → amsPartition s →
      amsPartition (amsSegWhiten ams s trace buffer)) ∧
    (∀ (ams : AMSPool) (s : AMSSeg) (trace : Nat),
      s.freeGrains ≤ BTCountResRange (nonwhiteView ams s) 0 s.grains →
      BTCountResRange (nonwhiteView ams s) 0 s.grains - s.freeGrains ≤
        s.oldGrains →
      amsPartition s → amsPartition (amsSegReclaim ams s trace)) ∧
    (∀ (s : AMSSeg) (loGrains hiGrains : Nat) (fLo fHi : TablePack)
      (segWhiteHi segGreyHi : TraceSet),
      loGrains + hiGrains = s.grains → hiGrains ≤ s.freeGrains →
      amsPartition s →
      amsPartition (AMSSegSplit s loGrains hiGrains fLo fHi segWhiteHi segGreyHi).1 ∧
      amsPartition (AMSSegSplit s loGrains hiGrains fLo fHi segWhiteHi segGreyHi).2) ∧
    (∀ (sLo sHi : AMSSeg) (f : TablePack),
      amsPartition sLo → amsPartition sHi → amsPartition (AMSSegMerge sLo sHi f)) ∧
    (∀ grains : Nat, awlPartition (AWLSegInit grains)) ∧
    (∀ (s : AWLSeg) (i j : Nat), j - i ≤ s.freeGrains → awlPartition s →
      awlPartition (AWLBufferFillFound s i j)) ∧
    (∀ (s : AWLSeg) (i j : Nat), j - i ≤ s.bufferedGrains → awlPartition s →
      awlPartition (AWLBufferEmpty s i j)) ∧
    (∀ (s : AWLSeg) (trace : Nat) (buffer : Option (Nat × Nat)),
      (match buffer with
       | some (sl, l) => l - sl
       | none => 0) ≤ s.bufferedGrains → awlPartition s →
      awlPartition (AWLWhiten s trace buffer)) ∧
    (∀ (objLim : Nat → Nat) (bufSkip : Option (Nat × Nat)) (trace : Nat)
      (s : AWLSeg),
      (awlReclaimLoop objLim bufSkip (s.grains + 1) 0 s 0).2 ≤ s.oldGrains →
      awlPartition s → awlPartition (AWLReclaim objLim bufSkip trace s)) :=
  ⟨AMSSegInit_partition,
   fun s rg hb wg rm btFind s' bi li heq hle hp =>
     amsSegBufferFill_partition s rg hb wg rm btFind s' bi li heq hle hp,
   amsSegBufferEmpty_partition,
   amsSegWhiten_partition,
   amsSegReclaim_partition,
   AMSSegSplit_partition,
   AMSSegMerge_partition,
   AWLSegInit_partition,
   AWLBufferFillFound_partition,
   AWLBufferEmpty_partition,
   AWLWhiten_partition,
   AWLReclaim_partition⟩

/-! Sample states for the C2 witness. -/

def sampleBT : BT := fun _ => false

def samplePack : TablePack := { allocT := sampleBT, nongreyT := sampleBT, nonwhiteT := sampleBT }

def sampleAMSSegReclaim : AMSSeg where
  grains := 2
  freeGrains := 0
  bufferedGrains := 0
  newGrains := 0
  oldGrains := 2
  allocBT := fun _ => true
  nongreyBT := fun _ => true
  nonwhiteBT := fun k => decide (1 ≤ k)
  allocTableInUse := true
  firstFree := 0
  colourTablesInUse := true
  marksChanged := false
  ambiguousFixes := false
  segWhite := {0}
  segGrey := ∅

/-- C2 witness: the partition statements at concrete segments. -/
theorem C2_grain_partition_witness :
    amsPartition (AMSSegInit 2 sampleBT sampleBT sampleBT) ∧
    amsPartition (amsSegBufferFillFound sampleAMSSeg 1 2) ∧
    amsPartition (amsSegBufferEmpty sampleAMSPool sampleAMSSeg 1 1) ∧
    amsPartition (amsSegWhiten sampleAMSPool sampleAMSSeg 0 none) ∧
    amsPartition (amsSegReclaim sampleAMSPool sampleAMSSegReclaim 0) ∧
    (amsPartition (AMSSegSplit sampleAMSSeg 1 1 samplePack samplePack ∅ ∅).1 ∧
     amsPartition (AMSSegSplit sampleAMSSeg 1 1 samplePack samplePack ∅ ∅).2) ∧
    amsPartition (AMSSegMerge sampleAMSSeg sampleAMSSeg samplePack) ∧
    awlPartition (AWLSegInit 2) ∧
    awlPartition (AWLBufferFillFound (AWLSegInit 2) 0 1) ∧
    awlPartition (AWLBufferEmpty (AWLSegInit 2) 1 1) ∧
    awlPartition (AWLWhiten (AWLSegInit 2) 0 none) ∧
    awlPartition (AWLReclaim (fun i => i + 1) none 0 (AWLSegInit 2)) := by
  have hpS : amsPartition sampleAMSSeg := by unfold amsPartition; decide
  have hpR : amsPartition sampleAMSSegReclaim := by unfold amsPartition; decide
  have hpW : awlPartition (AWLSegInit 2) := by unfold awlPartition AWLSegInit; decide
  refine ⟨C2_grain_partition.1 2 sampleBT sampleBT sampleBT,
    C2_grain_partition.2.1 sampleAMSSeg 1 false false true
      (fun _ _ _ _ => some (1, 2)) (amsSegBufferFillFound sampleAMSSeg 1 2) 1 2
      rfl (by decide) hpS,
    C2_grain_partition.2.2.1 sampleAMSPool sampleAMSSeg 1 1 (by decide) hpS,
    C2_grain_partition.2.2.2.1 sampleAMSPool sampleAMSSeg 0 none (by decide) hpS,
    C2_grain_partition.2.2.2.2.1 sampleAMSPool sampleAMSSegReclaim 0
      (by decide) (by decide) hpR,
    C2_grain_partition.2.2.2.2.2.1 sampleAMSSeg 1 1 samplePack samplePack ∅ ∅
      (by decide) (by decide) hpS,
    C2_grain_partition.2.2.2.2.2.2.1 sampleAMSSeg sampleAMSSeg samplePack hpS hpS,
    C2_grain_partition.2.2.2.2.2.2.2.1 2,
    C2_grain_partition.2.2.2.2.2.2.2.2.1 (AWLSegInit 2) 0 1 (by decide) hpW,
    C2_grain_partition.2.2.2.2.2.2.2.2.2.1 (AWLSegInit 2) 1 1 (by decide) hpW,
    C2_grain_partition.2.2.2.2.2.2.2.2.2.2.1 (AWLSegInit 2) 0 none (by decide) hpW,
    C2_grain_partition.2.2.2.2.2.2.2.2.2.2.2 (fun i => i + 1) none 0 (AWLSegInit 2)
      (by decide) hpW⟩

/-! ## Weak splat (claim C3) -/

/-- C3: a fix at rank WEAK whose target is white splats the reference cell
to zero and returns ResOK, and the segment is returned exactly as it was
(no mark/colour bit set, no grey set addition, no counter change): the AWL
statement (target's mark bit clear) and the AMS statement (target allocated
and not nonwhite). -/
theorem C3_weak_splat :
    (∀ (headerSize grainSize wordSize segBase : Nat) (s : AWLSeg)
      (traces : TraceSet) (clientRef : Nat),
      segBase ≤ clientRef - headerSize →
      s.mark ((clientRef - headerSize - segBase) / grainSize) = false →
      AWLFix headerSize grainSize wordSize segBase s Rank.rankWEAK traces
        clientRef = (s, 0, false, ResCode.resOK)) ∧
    (∀ (ams : AMSPool) (segBase : Nat) (skipFn : Nat → Nat)
      (segRankSetEmpty : Bool) (s : AMSSeg) (traces : TraceSet)
      (clientRef : Nat),
      segBase ≤ clientRef - ams.headerSize →
      (clientRef - ams.headerSize) % ams.alignment = 0 →
      AMS_ALLOCED s ((clientRef - ams.headerSize - segBase) / ams.alignment) = true →
      AMS_IS_WHITE ams s ((clientRef - ams.headerSize - segBase) / ams.alignment) = true →
      amsSegFix ams segBase skipFn segRankSetEmpty s Rank.rankWEAK traces
        clientRef = (s, 0, ResCode.resOK)) := by
  constructor
  · intro headerSize grainSize wordSize segBase s traces clientRef hbase hmark
    unfold AWLFix
    rw [if_neg (by omega)]
    simp only [hmark]
    simp
  · intro ams segBase skipFn segRankSetEmpty s traces clientRef hbase halign
      halloc hwhite
    unfold amsSegFix
    rw [if_neg (by omega)]
    rw [if_neg (by simp [halign])]
    rw [if_neg (by simp [halloc])]
    simp only [hwhite]
    simp

/-- C3 witness: a concrete weak fix on a white target in each pool. -/
theorem C3_weak_splat_witness :
    AWLFix 0 1 1 0 (AWLSegInit 2) Rank.rankWEAK ∅ 0 =
      (AWLSegInit 2, 0, false, ResCode.resOK) ∧
    amsSegFix sampleAMSPool 0 (fun a => a + 1) false sampleAMSSegReclaim
      Rank.rankWEAK ∅ 0 = (sampleAMSSegReclaim, 0, ResCode.resOK) :=
  ⟨C3_weak_splat.1 0 1 1 0 (AWLSegInit 2) ∅ 0 (by decide) (by decide),
   C3_weak_splat.2 sampleAMSPool 0 (fun a => a + 1) false sampleAMSSegReclaim ∅ 0
     (by decide) (by decide) (by decide) (by decide)⟩

/-! ## Single-access budget (claim C6) -/

theorem awlIterSingleAccess_count (cfg : AWLConfig)
    (htot : cfg.haveTotalSALimit = false) :
    ∀ (n : Nat) (c : AWLAccessCounts),
      c.singleAccesses + n ≤ cfg.segSALimit →
      (awlIterSingleAccess cfg true false false n c).singleAccesses =
        c.singleAccesses + n := by
  intro n
  induction n with
  | zero => intro c _; rfl
  | succ m ih =>
    intro c hle
    show (awlIterSingleAccess cfg true false false m
      (AWLAccess cfg true false false ResCode.resOK true c).1).singleAccesses = _
    have hcan : AWLCanTrySingleAccess cfg true false false c = true := by
      unfold AWLCanTrySingleAccess
      have h1 : ¬(cfg.segSALimit ≤ c.singleAccesses) := by omega
      simp [htot, h1]
    have hstep : (AWLAccess cfg true false false ResCode.resOK true c).1 =
        AWLNoteRefAccess c := by
      unfold AWLAccess
      rw [if_pos hcan]
    rw [hstep]
    have := ih (AWLNoteRefAccess c) (by unfold AWLNoteRefAccess; simp; omega)
    rw [this]
    unfold AWLNoteRefAccess
    simp
    omega

/-- C6: with the per-segment limit in force (the flag and AWLSegSALimit come
from config.h, which is outside src/: the spec gives the limit as 3 and in
force) and the total limit off, after AWLSegSALimit successful single
accesses from a fresh segment count, AWLCanTrySingleAccess declines the next
access; each successful single access increments both the segment's
singleAccesses and the pool's succAccesses; and a fall-back whole-segment
scan resets succAccesses to 0. -/
theorem C6_single_access_budget :
    (∀ (cfg : AWLConfig) (c0 : AWLAccessCounts),
      cfg.haveSegSALimit = true → cfg.haveTotalSALimit = false →
      c0.singleAccesses = 0 →
      AWLCanTrySingleAccess cfg true false false
        (awlIterSingleAccess cfg true false false cfg.segSALimit c0) = false) ∧
    (∀ (cfg : AWLConfig) (rankSetHasWeak flippedTracesEmpty accessRankWeak
        segOk : Bool) (c : AWLAccessCounts),
      AWLCanTrySingleAccess cfg rankSetHasWeak flippedTracesEmpty
        accessRankWeak c = true →
      AWLAccess cfg rankSetHasWeak flippedTracesEmpty accessRankWeak
        ResCode.resOK segOk c = (AWLNoteRefAccess c, ResCode.resOK) ∧
      (AWLNoteRefAccess c).singleAccesses = c.singleAccesses + 1 ∧
      (AWLNoteRefAccess c).succAccesses = c.succAccesses + 1) ∧
    (∀ (cfg : AWLConfig) (rankSetHasWeak flippedTracesEmpty accessRankWeak : Bool)
      (c : AWLAccessCounts),
      (AWLAccess cfg rankSetHasWeak flippedTracesEmpty accessRankWeak
        ResCode.resFAIL true c).1.succAccesses = 0) := by
  refine ⟨?_, ?_, ?_⟩
  · intro cfg c0 hseg htot h0
    have hcount := awlIterSingleAccess_count cfg htot cfg.segSALimit c0 (by omega)
    unfold AWLCanTrySingleAccess
    rw [hcount, h0]
    simp [hseg, htot]
  · intro cfg w f b segOk c hcan
    refine ⟨?_, rfl, rfl⟩
    unfold AWLAccess
    rw [if_pos hcan]
  · intro cfg w f b c
    unfold AWLAccess
    split
    · split <;> rfl
    · rename_i h; exact absurd rfl h

/-- C6 witness: the spec's configuration (AWLSegSALimit = 3, per-segment
limit in force, total limit off) at concrete counters. -/
theorem C6_single_access_budget_witness :
    AWLCanTrySingleAccess
      { haveSegSALimit := true, segSALimit := 3,
        haveTotalSALimit := false, totalSALimit := 0 } true false false
      (awlIterSingleAccess
        { haveSegSALimit := true, segSALimit := 3,
          haveTotalSALimit := false, totalSALimit := 0 } true false false 3
        { singleAccesses := 0, succAccesses := 0 }) = false ∧
    (AWLAccess
      { haveSegSALimit := true, segSALimit := 3,
        haveTotalSALimit := false, totalSALimit := 0 } true false false
      ResCode.resOK true { singleAccesses := 0, succAccesses := 0 } =
      (AWLNoteRefAccess { singleAccesses := 0, succAccesses := 0 },
       ResCode.resOK) ∧
     (AWLNoteRefAccess { singleAccesses := 0, succAccesses := 0 }).singleAccesses =
       0 + 1 ∧
     (AWLNoteRefAccess { singleAccesses := 0, succAccesses := 0 }).succAccesses =
       0 + 1) ∧
    (AWLAccess
      { haveSegSALimit := true, segSALimit := 3,
        haveTotalSALimit := false, totalSALimit := 0 } true false false
      ResCode.resFAIL true { singleAccesses := 2, succAccesses := 2 }).1.succAccesses =
      0 :=
  ⟨C6_single_access_budget.1
     { haveSegSALimit := true, segSALimit := 3,
       haveTotalSALimit := false, totalSALimit := 0 }
     { singleAccesses := 0, succAccesses := 0 } rfl rfl rfl,
   C6_single_access_budget.2.1
     { haveSegSALimit := true, segSALimit := 3,
       haveTotalSALimit := false, totalSALimit := 0 } true false false true
     { singleAccesses := 0, succAccesses := 0 } (by decide),
   C6_single_access_budget.2.2
     { haveSegSALimit := true, segSALimit := 3,
       haveTotalSALimit := false, totalSALimit := 0 } true false false
     { singleAccesses := 2, succAccesses := 2 }⟩

/-! ## Buffers are allocated black in AWL (claim C10) -/

theorem BTIsSetRange_eq_true_iff (bt : BT) (a b : Nat) :
    BTIsSetRange bt a b = true ↔ ∀ k, a ≤ k → k < b → bt k = true := by
  unfold BTIsSetRange
  rw [List.all_eq_true]
  constructor
  · intro h k h1 h2
    have hk := h k (List.mem_range.mpr h2)
    simp at hk
    rcases hk with hk | hk
    · omega
    · exact hk
  · intro h x hx
    have hxb := List.mem_range.mp hx
    by_cases hxa : x < a
    · simp [hxa]
    · simp [hxa]
      exact h x (by omega) hxb

theorem awlRangeWhiten_mark (s : AWLSeg) (a b k : Nat) :
    (awlRangeWhiten s a b).mark k =
      if a ≤ k ∧ k < b then false else s.mark k := by
  unfold awlRangeWhiten
  split
  · simp [BTResRange_apply]
  · rename_i h
    have hab : a = b := by omega
    subst hab
    have : ¬(a ≤ k ∧ k < a) := by omega
    simp [this]

theorem awlRangeWhiten_scanned (s : AWLSeg) (a b k : Nat) :
    (awlRangeWhiten s a b).scanned k =
      if a ≤ k ∧ k < b then false else s.scanned k := by
  unfold awlRangeWhiten
  split
  · simp [BTResRange_apply]
  · rename_i h
    have hab : a = b := by omega
    subst hab
    have : ¬(a ≤ k ∧ k < a) := by omega
    simp [this]

/-- AWLWhiten does not touch the mark and scanned bits of the buffered
region [scanLimitIndex, limitIndex). -/
theorem AWLWhiten_buffer_black_kept (s : AWLSeg) (trace sl l k : Nat)
    (h1 : sl ≤ k) (h2 : k < l) :
    (AWLWhiten s trace (some (sl, l))).mark k = s.mark k ∧
    (AWLWhiten s trace (some (sl, l))).scanned k = s.scanned k := by
  simp only [AWLWhiten]
  have hm1 : ¬(l ≤ k ∧ k < (awlRangeWhiten s 0 sl).grains) := by omega
  have hm2 : ¬(0 ≤ k ∧ k < sl) := by omega
  split <;>
    simp [awlRangeWhiten_mark, awlRangeWhiten_scanned, hm1, hm2] <;>
    exact ⟨fun _ => h1, fun _ => h1⟩

/-- C10: AWLBufferFill hands out black grains: the found block sets alloc,
mark and scanned over the whole range [i, j); consequently for a buffered
region inside such a range the AVER in AWLWhiten (mark and scanned set over
[scanLimitIndex, limitIndex)) holds, and whitening leaves that region black. -/
theorem C10_awl_buffer_black :
    (∀ (s : AWLSeg) (i j k : Nat), i ≤ k → k < j →
      (AWLBufferFillFound s i j).alloc k = true ∧
      (AWLBufferFillFound s i j).mark k = true ∧
      (AWLBufferFillFound s i j).scanned k = true) ∧
    (∀ (s : AWLSeg) (trace sl l : Nat),
      (∀ k, sl ≤ k → k < l → s.mark k = true ∧ s.scanned k = true) →
      (BTIsSetRange s.mark sl l = true ∧ BTIsSetRange s.scanned sl l = true) ∧
      (∀ k, sl ≤ k → k < l →
        (AWLWhiten s trace (some (sl, l))).mark k = true ∧
        (AWLWhiten s trace (some (sl, l))).scanned k = true)) := by
  constructor
  · intro s i j k h1 h2
    unfold AWLBufferFillFound
    simp [BTSetRange_apply]
    omega
  · intro s trace sl l hblack
    refine ⟨⟨?_, ?_⟩, ?_⟩
    · exact (BTIsSetRange_eq_true_iff s.mark sl l).mpr
        (fun k h1 h2 => (hblack k h1 h2).1)
    · exact (BTIsSetRange_eq_true_iff s.scanned sl l).mpr
        (fun k h1 h2 => (hblack k h1 h2).2)
    · intro k h1 h2
      obtain ⟨hm, hs⟩ := AWLWhiten_buffer_black_kept s trace sl l k h1 h2
      exact ⟨hm.trans (hblack k h1 h2).1, hs.trans (hblack k h1 h2).2⟩

/-- C10 witness: a concrete fill and whiten on a two-grain segment. -/
theorem C10_awl_buffer_black_witness :
    ((AWLBufferFillFound (AWLSegInit 2) 0 2).alloc 1 = true ∧
     (AWLBufferFillFound (AWLSegInit 2) 0 2).mark 1 = true ∧
     (AWLBufferFillFound (AWLSegInit 2) 0 2).scanned 1 = true) ∧
    ((BTIsSetRange (AWLBufferFillFound (AWLSegInit 2) 0 2).mark 0 2 = true ∧
      BTIsSetRange (AWLBufferFillFound (AWLSegInit 2) 0 2).scanned 0 2 = true) ∧
     (∀ k, 0 ≤ k → k < 2 →
       (AWLWhiten (AWLBufferFillFound (AWLSegInit 2) 0 2) 0 (some (0, 2))).mark k
         = true ∧
       (AWLWhiten (AWLBufferFillFound (AWLSegInit 2) 0 2) 0 (some (0, 2))).scanned k
         = true)) :=
  ⟨C10_awl_buffer_black.1 (AWLSegInit 2) 0 2 1 (by decide) (by decide),
   C10_awl_buffer_black.2 (AWLBufferFillFound (AWLSegInit 2) 0 2) 0 0 2
     (fun k h1 h2 =>
       (C10_awl_buffer_black.1 (AWLSegInit 2) 0 2 k h1 h2).2)⟩

/-! ## amsSegWhiten functional behaviour (claim C5) -/

theorem amsSegWhiten_segWhite (ams : AMSPool) (s : AMSSeg) (trace : Nat)
    (buffer : Option (Nat × Nat)) :
    (amsSegWhiten ams s trace buffer).segWhite =
      if 0 < s.oldGrains + (s.bufferedGrains -
          (match buffer with
           | some (sl, l) => l - sl
           | none => 0)) + s.newGrains then
        insert trace s.segWhite
      else s.segWhite := by
  rcases buffer with _ | ⟨sl, l⟩
  · simp only [amsSegWhiten]
    rw [amsSegWhitenAge_segWhite]
    obtain ⟨b1, b2, b3, b4⟩ := amsSegRangeWhiten_counters ams
      (amsSegWhitenPrep ams { s with colourTablesInUse := true })
      0 (amsSegWhitenPrep ams { s with colourTablesInUse := true }).grains
    obtain ⟨p1, p2, p3, p4⟩ :=
      amsSegWhitenPrep_counters ams { s with colourTablesInUse := true }
    rw [amsSegRangeWhiten_segWhite, amsSegWhitenPrep_segWhite]
    simp [b2, b3, b4, p2, p3, p4]
  · simp only [amsSegWhiten]
    set s3 := amsSegWhitenPrep ams { s with colourTablesInUse := true } with hs3
    set s4 := amsSegRangeWhiten ams s3 0 sl with hs4
    set s5 := (if sl < l then AMS_RANGE_BLACKEN ams s4 sl l else s4) with hs5
    rw [amsSegWhitenAge_segWhite]
    obtain ⟨b1, b2, b3, b4⟩ := amsSegRangeWhiten_counters ams s5 l s5.grains
    rw [amsSegRangeWhiten_segWhite]
    have h5 : s5.bufferedGrains = s4.bufferedGrains ∧ s5.newGrains = s4.newGrains ∧
        s5.oldGrains = s4.oldGrains ∧ s5.segWhite = s4.segWhite := by
      rw [hs5]
      split
      · obtain ⟨x1, x2, x3, x4⟩ := AMS_RANGE_BLACKEN_counters ams s4 sl l
        exact ⟨x2, x3, x4, AMS_RANGE_BLACKEN_segWhite ams s4 sl l⟩
      · exact ⟨rfl, rfl, rfl, rfl⟩
    obtain ⟨e2, e3, e4, e5⟩ := h5
    obtain ⟨f1, f2, f3, f4⟩ := amsSegRangeWhiten_counters ams s3 0 sl
    obtain ⟨p1, p2, p3, p4⟩ :=
      amsSegWhitenPrep_counters ams { s with colourTablesInUse := true }
    simp [b2, b3, b4, e2, e3, e4, e5, hs4, f2, f3, f4, hs3, p2, p3, p4,
      amsSegRangeWhiten_segWhite, amsSegWhitenPrep_segWhite]

theorem amsSegWhiten_colourTablesInUse (ams : AMSPool) (s : AMSSeg) (trace : Nat)
    (buffer : Option (Nat × Nat)) :
    (amsSegWhiten ams s trace buffer).colourTablesInUse =
      if 0 < s.oldGrains + (s.bufferedGrains -
          (match buffer with
           | some (sl, l) => l - sl
           | none => 0)) + s.newGrains then
        true
      else false := by
  rcases buffer with _ | ⟨sl, l⟩
  · simp only [amsSegWhiten]
    rw [amsSegWhitenAge_colourTablesInUse]
    obtain ⟨b1, b2, b3, b4⟩ := amsSegRangeWhiten_counters ams
      (amsSegWhitenPrep ams { s with colourTablesInUse := true })
      0 (amsSegWhitenPrep ams { s with colourTablesInUse := true }).grains
    obtain ⟨p1, p2, p3, p4⟩ :=
      amsSegWhitenPrep_counters ams { s with colourTablesInUse := true }
    rw [amsSegRangeWhiten_colourTablesInUse, amsSegWhitenPrep_colourTablesInUse]
    simp [b2, b3, b4, p2, p3, p4]
  · simp only [amsSegWhiten]
    set s3 := amsSegWhitenPrep ams { s with colourTablesInUse := true } with hs3
    set s4 := amsSegRangeWhiten ams s3 0 sl with hs4
    set s5 := (if sl < l then AMS_RANGE_BLACKEN ams s4 sl l else s4) with hs5
    rw [amsSegWhitenAge_colourTablesInUse]
    obtain ⟨b1, b2, b3, b4⟩ := amsSegRangeWhiten_counters ams s5 l s5.grains
    rw [amsSegRangeWhiten_colourTablesInUse]
    have h5 : s5.bufferedGrains = s4.bufferedGrains ∧ s5.newGrains = s4.newGrains ∧
        s5.oldGrains = s4.oldGrains ∧
        s5.colourTablesInUse = s4.colourTablesInUse := by
      rw [hs5]
      split
      · obtain ⟨x1, x2, x3, x4⟩ := AMS_RANGE_BLACKEN_counters ams s4 sl l
        exact ⟨x2, x3, x4, AMS_RANGE_BLACKEN_colourTablesInUse ams s4 sl l⟩
      · exact ⟨rfl, rfl, rfl, rfl⟩
    obtain ⟨e2, e3, e4, e5⟩ := h5
    obtain ⟨f1, f2, f3, f4⟩ := amsSegRangeWhiten_counters ams s3 0 sl
    obtain ⟨p1, p2, p3, p4⟩ :=
      amsSegWhitenPrep_counters ams { s with colourTablesInUse := true }
    simp [b2, b3, b4, e2, e3, e4, e5, hs4, f2, f3, f4, hs3, p2, p3, p4,
      amsSegRangeWhiten_colourTablesInUse, amsSegWhitenPrep_colourTablesInUse]

/-- C5: on a segment with SegWhite empty and colour tables not in use,
amsSegWhiten whitens [0, scanLimitIndex), blackens the buffer's region
[scanLimitIndex, limitIndex), whitens [limitIndex, grains) when a buffer is
attached (the whole segment otherwise); it leaves limitIndex - scanLimitIndex
grains buffered, ages the rest of the buffered grains and all new grains
into old, zeroes newGrains, and adds the trace to SegWhite exactly when the
resulting oldGrains is positive, turning the colour tables back off
otherwise. -/
theorem C5_ams_whiten :
    (∀ (ams : AMSPool) (s : AMSSeg) (trace sl l : Nat),
      s.segWhite = ∅ → s.colourTablesInUse = false →
      sl ≤ l → l ≤ s.grains → l - sl ≤ s.bufferedGrains →
      (∀ k, k < s.grains →
        ((k < sl ∨ l ≤ k) →
          AMS_IS_WHITE ams (amsSegWhiten ams s trace (some (sl, l))) k = true ∧
          AMS_IS_GREY (amsSegWhiten ams s trace (some (sl, l))) k = false) ∧
        (sl ≤ k → k < l →
          AMS_IS_WHITE ams (amsSegWhiten ams s trace (some (sl, l))) k = false ∧
          AMS_IS_GREY (amsSegWhiten ams s trace (some (sl, l))) k = false)) ∧
      (amsSegWhiten ams s trace (some (sl, l))).bufferedGrains = l - sl ∧
      (amsSegWhiten ams s trace (some (sl, l))).newGrains = 0 ∧
      (amsSegWhiten ams s trace (some (sl, l))).oldGrains =
        s.oldGrains + (s.bufferedGrains - (l - sl)) + s.newGrains ∧
      (amsSegWhiten ams s trace (some (sl, l))).segWhite =
        (if 0 < s.oldGrains + (s.bufferedGrains - (l - sl)) + s.newGrains then
          {trace} else (∅ : TraceSet)) ∧
      (amsSegWhiten ams s trace (some (sl, l))).colourTablesInUse =
        (if 0 < s.oldGrains + (s.bufferedGrains - (l - sl)) + s.newGrains then
          true else false)) ∧
    (∀ (ams : AMSPool) (s : AMSSeg) (trace : Nat),
      s.segWhite = ∅ → s.colourTablesInUse = false →
      (∀ k, k < s.grains →
        AMS_IS_WHITE ams (amsSegWhiten ams s trace none) k = true ∧
        AMS_IS_GREY (amsSegWhiten ams s trace none) k = false) ∧
      (amsSegWhiten ams s trace none).bufferedGrains = 0 ∧
      (amsSegWhiten ams s trace none).newGrains = 0 ∧
      (amsSegWhiten ams s trace none).oldGrains =
        s.oldGrains + s.bufferedGrains + s.newGrains ∧
      (amsSegWhiten ams s trace none).segWhite =
        (if 0 < s.oldGrains + s.bufferedGrains + s.newGrains then
          {trace} else (∅ : TraceSet)) ∧
      (amsSegWhiten ams s trace none).colourTablesInUse =
        (if 0 < s.oldGrains + s.bufferedGrains + s.newGrains then
          true else false)) := by
  constructor
  · intro ams s trace sl l hw hc hsl hl hle
    obtain ⟨c1, c2, c3, c4⟩ := amsSegWhiten_counters ams s trace (some (sl, l))
    refine ⟨?_, c2, c3, c4, ?_, ?_⟩
    · intro k hk
      have hch := amsSegWhiten_buffer_colours ams s trace sl l hsl hl k hk
      constructor
      · intro hor
        obtain ⟨hv, hg⟩ := hch.1 hor
        unfold AMS_IS_WHITE AMS_IS_GREY
        simp [hv, hg]
      · intro h1 h2
        obtain ⟨hv, hg⟩ := hch.2 h1 h2
        unfold AMS_IS_WHITE AMS_IS_GREY
        simp [hv, hg]
    · rw [amsSegWhiten_segWhite, hw]
      simp
    · rw [amsSegWhiten_colourTablesInUse]
  · intro ams s trace hw hc
    obtain ⟨c1, c2, c3, c4⟩ := amsSegWhiten_counters ams s trace none
    refine ⟨?_, by simpa using c2, c3, by simpa using c4, ?_, ?_⟩
    · intro k hk
      obtain ⟨hv, hg⟩ := amsSegWhiten_none_colours ams s trace k hk
      unfold AMS_IS_WHITE AMS_IS_GREY
      simp [hv, hg]
    · rw [amsSegWhiten_segWhite, hw]
      simp
    · rw [amsSegWhiten_colourTablesInUse]
      simp

/-- C5 witness: a whiten with a buffer and one without, at a concrete
segment. -/
theorem C5_ams_whiten_witness :
    ((amsSegWhiten sampleAMSPool sampleAMSSeg 0 (some (1, 1))).newGrains = 0 ∧
     (amsSegWhiten sampleAMSPool sampleAMSSeg 0 (some (1, 1))).oldGrains = 1 ∧
     AMS_IS_WHITE sampleAMSPool
       (amsSegWhiten sampleAMSPool sampleAMSSeg 0 (some (1, 1))) 0 = true) ∧
    ((amsSegWhiten sampleAMSPool sampleAMSSeg 0 none).bufferedGrains = 0 ∧
     (amsSegWhiten sampleAMSPool sampleAMSSeg 0 none).segWhite = {0}) := by
  have h1 := C5_ams_whiten.1 sampleAMSPool sampleAMSSeg 0 1 1 rfl rfl
    (by decide) (by decide) (by decide)
  have h2 := C5_ams_whiten.2 sampleAMSPool sampleAMSSeg 0 rfl rfl
  refine ⟨⟨h1.2.2.1, ?_, ?_⟩, ⟨h2.2.1, ?_⟩⟩
  · rw [h1.2.2.2.1]; decide
  · exact ((h1.1 0 (by decide)).1 (Or.inl (by decide))).1
  · rw [h2.2.2.2.2.1]; decide

/-! ## Table-allocation atomicity (claim C9) -/

theorem createsOf_append (l1 l2 : List BTEvent) :
    createsOf (l1 ++ l2) = createsOf l1 ++ createsOf l2 := by
  induction l1 with
  | nil => rfl
  | cons e rest ih => cases e <;> simp [createsOf, ih]

theorem destroysOf_append (l1 l2 : List BTEvent) :
    destroysOf (l1 ++ l2) = destroysOf l1 ++ destroysOf l2 := by
  induction l1 with
  | nil => rfl
  | cons e rest ih => cases e <;> simp [destroysOf, ih]

theorem amsDestroyTablesEv_events (share : Bool) (a g w : Nat) (st : AllocSt) :
    (amsDestroyTablesEv share a g w st).events =
      st.events ++ (if share then [BTEvent.destroy g, BTEvent.destroy a]
        else [BTEvent.destroy w, BTEvent.destroy g, BTEvent.destroy a]) := by
  unfold amsDestroyTablesEv btDestroyEv
  cases share <;> simp

/-- amsCreateTables either fails having destroyed what it created, in
reverse order (the tail of events is balanced), or succeeds with only
creations, whose order is the reverse of amsDestroyTables' destruction
order for the returned identities. -/
theorem amsCreateTablesEv_spec (share : Bool) (st : AllocSt) :
    ∃ tail : List BTEvent,
      (amsCreateTablesEv share st).2.events = st.events ++ tail ∧
      ((amsCreateTablesEv share st).1 = none →
        destroysOf tail = (createsOf tail).reverse) ∧
      (∀ a g w, (amsCreateTablesEv share st).1 = some (a, g, w) →
        destroysOf tail = [] ∧
        createsOf tail =
          ((if share then [g, a] else [w, g, a]) : List Nat).reverse) := by
  rcases st with ⟨supply, nextId, events⟩
  rcases supply with _ | ⟨ok1, supply⟩
  · refine ⟨[], by simp [amsCreateTablesEv, btCreateEv], ?_, ?_⟩ <;>
      simp [amsCreateTablesEv, btCreateEv, destroysOf, createsOf]
  rcases ok1
  case false =>
    refine ⟨[], by simp [amsCreateTablesEv, btCreateEv], ?_, ?_⟩ <;>
      simp [amsCreateTablesEv, btCreateEv, destroysOf, createsOf]
  rcases supply with _ | ⟨ok2, supply⟩
  · refine ⟨[BTEvent.create nextId, BTEvent.destroy nextId], ?_, ?_, ?_⟩ <;>
      simp [amsCreateTablesEv, btCreateEv, btDestroyEv, destroysOf, createsOf]
  rcases ok2
  case false =>
    refine ⟨[BTEvent.create nextId, BTEvent.destroy nextId], ?_, ?_, ?_⟩ <;>
      simp [amsCreateTablesEv, btCreateEv, btDestroyEv, destroysOf, createsOf]
  rcases hsh : share
  case true =>
    refine ⟨[BTEvent.create nextId, BTEvent.create (nextId + 1)], ?_, ?_, ?_⟩ <;>
      simp [amsCreateTablesEv, btCreateEv, btDestroyEv, destroysOf, createsOf]
  case false =>
    rcases supply with _ | ⟨ok3, supply⟩
    · refine ⟨[BTEvent.create nextId, BTEvent.create (nextId + 1),
        BTEvent.destroy (nextId + 1), BTEvent.destroy nextId], ?_, ?_, ?_⟩ <;>
        simp [amsCreateTablesEv, btCreateEv, btDestroyEv, destroysOf, createsOf]
    rcases ok3
    case false =>
      refine ⟨[BTEvent.create nextId, BTEvent.create (nextId + 1),
        BTEvent.destroy (nextId + 1), BTEvent.destroy nextId], ?_, ?_, ?_⟩ <;>
        simp [amsCreateTablesEv, btCreateEv, btDestroyEv, destroysOf, createsOf]
    case true =>
      refine ⟨[BTEvent.create nextId, BTEvent.create (nextId + 1),
        BTEvent.create (nextId + 2)], ?_, ?_, ?_⟩ <;>
        simp [amsCreateTablesEv, btCreateEv, btDestroyEv, destroysOf, createsOf]

theorem amsCreateTablesEv_spec2 (share : Bool) (st : AllocSt)
    (r : Option (Nat × Nat × Nat)) (st1 : AllocSt)
    (h : amsCreateTablesEv share st = (r, st1)) :
    ∃ tail, st1.events = st.events ++ tail ∧
      (r = none → destroysOf tail = (createsOf tail).reverse) ∧
      (∀ a g w, r = some (a, g, w) → destroysOf tail = [] ∧
        createsOf tail = ((if share then [g, a] else [w, g, a]) : List Nat).reverse) := by
  obtain ⟨tail, h1, h2, h3⟩ := amsCreateTablesEv_spec share st
  rw [h] at h1 h2 h3
  exact ⟨tail, h1, h2, h3⟩

theorem amsSegSplitEv_fail_balanced (share superOk : Bool) (st : AllocSt)
    (h0 : st.events = [])
    (hfail : (amsSegSplitEv share superOk st).1 = none) :
    destroysOf (amsSegSplitEv share superOk st).2.events =
      (createsOf (amsSegSplitEv share superOk st).2.events).reverse := by
  unfold amsSegSplitEv at hfail ⊢
  rcases hlo : amsCreateTablesEv share st with ⟨rlo, st1⟩
  obtain ⟨tailLo, hloE, hloFail, hloSucc⟩ := amsCreateTablesEv_spec2 share st rlo st1 hlo
  rw [hlo] at hfail
  rcases rlo with _ | ⟨a, g, w⟩
  · simp only []
    rw [hloE, h0]
    simp [hloFail rfl]
  · obtain ⟨hloD, hloC⟩ := hloSucc a g w rfl
    simp only [] at hfail ⊢
    rcases hhi : amsCreateTablesEv share st1 with ⟨rhi, st2⟩
    obtain ⟨tailHi, hhiE, hhiFail, hhiSucc⟩ := amsCreateTablesEv_spec2 share st1 rhi st2 hhi
    rw [hhi] at hfail
    rcases rhi with _ | ⟨a2, g2, w2⟩
    · simp only []
      rw [amsDestroyTablesEv_events, hhiE, hloE, h0]
      simp [destroysOf_append, createsOf_append, hloD, hloC, hhiFail rfl]
      cases share <;> simp [destroysOf, createsOf]
    · obtain ⟨hhiD, hhiC⟩ := hhiSucc a2 g2 w2 rfl
      cases superOk
      · simp only []
        simp only [Bool.false_eq_true, if_false]
        rw [amsDestroyTablesEv_events, amsDestroyTablesEv_events, hhiE, hloE, h0]
        simp [destroysOf_append, createsOf_append, hloD, hloC, hhiD, hhiC]
        cases share <;> simp [destroysOf, createsOf]
      · simp at hfail

theorem amsSegMergeEv_fail_balanced (share superOk : Bool) (st : AllocSt)
    (h0 : st.events = [])
    (hfail : (amsSegMergeEv share superOk st).1 = none) :
    destroysOf (amsSegMergeEv share superOk st).2.events =
      (createsOf (amsSegMergeEv share superOk st).2.events).reverse := by
  unfold amsSegMergeEv at hfail ⊢
  rcases hc : amsCreateTablesEv share st with ⟨r, st1⟩
  obtain ⟨tail, hE, hFail, hSucc⟩ := amsCreateTablesEv_spec2 share st r st1 hc
  rw [hc] at hfail
  rcases r with _ | ⟨a, g, w⟩
  · simp only []
    rw [hE, h0]
    simp [hFail rfl]
  · obtain ⟨hD, hC⟩ := hSucc a g w rfl
    cases superOk
    · simp only []
      simp only [Bool.false_eq_true, if_false]
      rw [amsDestroyTablesEv_events, hE, h0]
      simp [destroysOf_append, createsOf_append, hD, hC]
      cases share <;> simp [destroysOf, createsOf]
    · simp at hfail

theorem amsSegSplitEv_superFail (share : Bool) (st : AllocSt) :
    (amsSegSplitEv share false st).1 = none := by
  unfold amsSegSplitEv
  rcases hlo : amsCreateTablesEv share st with ⟨rlo, st1⟩
  rcases rlo with _ | lo
  · rfl
  · simp only []
    rcases hhi : amsCreateTablesEv share st1 with ⟨rhi, st2⟩
    rcases rhi with _ | hi
    · rfl
    · rfl

theorem AMSSegSplitWithAlloc_fail_unchanged (s : AMSSeg) (loGrains hiGrains : Nat)
    (fLo fHi : TablePack) (segWhiteHi segGreyHi : TraceSet)
    (share superOk : Bool) (st : AllocSt)
    (hfail : (amsSegSplitEv share superOk st).1 = none) :
    (AMSSegSplitWithAlloc s loGrains hiGrains fLo fHi segWhiteHi segGreyHi
      share superOk st).1 = (s, none) := by
  unfold AMSSegSplitWithAlloc
  rcases hev : amsSegSplitEv share superOk st with ⟨r, st1⟩
  rw [hev] at hfail
  rcases r with _ | packs
  · rfl
  · simp at hfail

/-- C9: table allocation is atomic: when amsCreateTables, AMSSegSplit's or
AMSSegMerge's allocation phase fails (a table allocation fails, or the
superclass call fails after the tables were allocated), every table created
is destroyed, in reverse creation order, the error propagates, and on a
split failure the segment is returned untouched with no high half. -/
theorem C9_table_alloc_atomic :
    (∀ (share : Bool) (st : AllocSt), st.events = [] →
      (amsCreateTablesEv share st).1 = none →
      destroysOf (amsCreateTablesEv share st).2.events =
        (createsOf (amsCreateTablesEv share st).2.events).reverse) ∧
    (∀ (share superOk : Bool) (st : AllocSt), st.events = [] →
      (amsSegSplitEv share superOk st).1 = none →
      destroysOf (amsSegSplitEv share superOk st).2.events =
        (createsOf (amsSegSplitEv share superOk st).2.events).reverse) ∧
    (∀ (share superOk : Bool) (st : AllocSt), st.events = [] →
      (amsSegMergeEv share superOk st).1 = none →
      destroysOf (amsSegMergeEv share superOk st).2.events =
        (createsOf (amsSegMergeEv share superOk st).2.events).reverse) ∧
    (∀ (share : Bool) (st : AllocSt), (amsSegSplitEv share false st).1 = none) ∧
    (∀ (s : AMSSeg) (loGrains hiGrains : Nat) (fLo fHi : TablePack)
      (segWhiteHi segGreyHi : TraceSet) (share superOk : Bool) (st : AllocSt),
      (amsSegSplitEv share superOk st).1 = none →
      (AMSSegSplitWithAlloc s loGrains hiGrains fLo fHi segWhiteHi segGreyHi
        share superOk st).1 = (s, none)) := by
  refine ⟨?_, amsSegSplitEv_fail_balanced, amsSegMergeEv_fail_balanced,
    amsSegSplitEv_superFail, AMSSegSplitWithAlloc_fail_unchanged⟩
  intro share st h0 hfail
  obtain ⟨tail, hE, hFail, _⟩ := amsCreateTablesEv_spec share st
  rw [hE, h0]
  simp [hFail hfail]

/-- C9 witness: a failing middle allocation, a split whose superclass call
fails, a merge whose superclass call fails, and the untouched segment. -/
theorem C9_table_alloc_atomic_witness :
    (destroysOf (amsCreateTablesEv false
        { supply := [true, false], nextId := 0, events := [] }).2.events =
      (createsOf (amsCreateTablesEv false
        { supply := [true, false], nextId := 0, events := [] }).2.events).reverse) ∧
    (destroysOf (amsSegSplitEv false false
        { supply := [true, true, true, true, true, true], nextId := 0,
          events := [] }).2.events =
      (createsOf (amsSegSplitEv false false
        { supply := [true, true, true, true, true, true], nextId := 0,
          events := [] }).2.events).reverse) ∧
    (destroysOf (amsSegMergeEv false false
        { supply := [true, true, true], nextId := 0, events := [] }).2.events =
      (createsOf (amsSegMergeEv false false
        { supply := [true, true, true], nextId := 0, events := [] }).2.events).reverse) ∧
    (AMSSegSplitWithAlloc sampleAMSSeg 1 1 samplePack samplePack ∅ ∅ false false
      { supply := [true, true, true, true, true, true], nextId := 0,
        events := [] }).1 = (sampleAMSSeg, none) :=
  ⟨C9_table_alloc_atomic.1 false
     { supply := [true, false], nextId := 0, events := [] } rfl (by decide),
   C9_table_alloc_atomic.2.1 false false
     { supply := [true, true, true, true, true, true], nextId := 0, events := [] }
     rfl (by decide),
   C9_table_alloc_atomic.2.2.1 false false
     { supply := [true, true, true], nextId := 0, events := [] } rfl (by decide),
   C9_table_alloc_atomic.2.2.2.2 sampleAMSSeg 1 1 samplePack samplePack ∅ ∅
     false false
     { supply := [true, true, true, true, true, true], nextId := 0, events := [] }
     (by decide)⟩

/-! ## C4: the AWL reclaim walk -/

/-- The walk structure of AWLReclaim (poolawl.c, no buffer): from grain i the
walk stops at the segment end, steps over an unallocated grain, or crosses one
allocated object spanning [i, objLim i).  The spans list collects the objects
in walk order. -/
inductive AWLWalk (objLim : Nat → Nat) (s : AWLSeg) : Nat → List (Nat × Nat) → Prop where
  | nil : AWLWalk objLim s s.grains []
  | gap {i : Nat} {spans : List (Nat × Nat)} : i < s.grains → s.alloc i = false →
      AWLWalk objLim s (i + 1) spans → AWLWalk objLim s i spans
  | obj {i : Nat} {spans : List (Nat × Nat)} : i < s.grains → s.alloc i = true →
      i < objLim i → AWLWalk objLim s (objLim i) spans →
      AWLWalk objLim s i ((i, objLim i) :: spans)

theorem AWLWalk_le {objLim : Nat → Nat} {s : AWLSeg} {i : Nat}
    {L : List (Nat × Nat)} (h : AWLWalk objLim s i L) : i ≤ s.grains := by
  induction h with
  | nil => exact le_refl _
  | gap hi _ _ _ => exact Nat.le_of_lt hi
  | obj hi _ _ _ _ => exact Nat.le_of_lt hi

/-- The grains credited to reclaimedGrains by a walk: the total length of the
spans whose head grain is unmarked. -/
def reclaimSum (s : AWLSeg) : List (Nat × Nat) → Nat
  | [] => 0
  | ab :: L => (if s.mark ab.1 then 0 else ab.2 - ab.1) + reclaimSum s L

theorem awlReclaimLoop_step_gap (objLim : Nat → Nat) (bufSkip : Option (Nat × Nat))
    (f i : Nat) (t : AWLSeg) (r : Nat) (hi : i < t.grains) (ha : t.alloc i = false) :
    awlReclaimLoop objLim bufSkip (f + 1) i t r =
      awlReclaimLoop objLim bufSkip f (i + 1) t r := by
  simp only [awlReclaimLoop]
  rw [if_pos hi, ha]
  simp

theorem awlReclaimLoop_step_keep (objLim : Nat → Nat) (f i : Nat) (t : AWLSeg)
    (r : Nat) (hi : i < t.grains) (ha : t.alloc i = true) (hm : t.mark i = true) :
    awlReclaimLoop objLim none (f + 1) i t r =
      awlReclaimLoop objLim none f (objLim i)
        { t with mark := BTSetRange t.mark i (objLim i)
                 scanned := BTSetRange t.scanned i (objLim i) } r := by
  simp only [awlReclaimLoop]
  rw [if_pos hi, ha, hm]
  simp

theorem awlReclaimLoop_step_free (objLim : Nat → Nat) (f i : Nat) (t : AWLSeg)
    (r : Nat) (hi : i < t.grains) (ha : t.alloc i = true) (hm : t.mark i = false) :
    awlReclaimLoop objLim none (f + 1) i t r =
      awlReclaimLoop objLim none f (objLim i)
        { t with mark := BTResRange t.mark i (objLim i)
                 scanned := BTSetRange t.scanned i (objLim i)
                 alloc := BTResRange t.alloc i (objLim i) } (r + (objLim i - i)) := by
  simp only [awlReclaimLoop]
  rw [if_pos hi, ha, hm]
  simp

/-- The table effect of the reclaim walk, relative to a current state t that
agrees with the walked segment s from grain i up: grains below i and at or
past the segment end are untouched, grains in no span are untouched, kept
spans get mark and scanned set throughout with alloc unchanged, freed spans
get mark and alloc reset and scanned set throughout, and the credit is the
total length of the freed spans. -/
theorem awlReclaimLoop_walk_spec (objLim : Nat → Nat) (s : AWLSeg) :
    ∀ {i : Nat} {L : List (Nat × Nat)}, AWLWalk objLim s i L →
    ∀ (fuel : Nat) (t : AWLSeg) (r : Nat), s.grains ≤ i + fuel →
    t.grains = s.grains →
    (∀ k, i ≤ k → t.mark k = s.mark k ∧ t.scanned k = s.scanned k ∧
      t.alloc k = s.alloc k) →
    (∀ k, k < i ∨ s.grains ≤ k →
      (awlReclaimLoop objLim none fuel i t r).1.mark k = t.mark k ∧
      (awlReclaimLoop objLim none fuel i t r).1.scanned k = t.scanned k ∧
      (awlReclaimLoop objLim none fuel i t r).1.alloc k = t.alloc k) ∧
    (∀ k, i ≤ k → (∀ ab ∈ L, k < ab.1 ∨ ab.2 ≤ k) →
      (awlReclaimLoop objLim none fuel i t r).1.mark k = s.mark k ∧
      (awlReclaimLoop objLim none fuel i t r).1.scanned k = s.scanned k ∧
      (awlReclaimLoop objLim none fuel i t r).1.alloc k = s.alloc k) ∧
    (∀ ab ∈ L, s.mark ab.1 = true → ∀ k, ab.1 ≤ k → k < ab.2 →
      (awlReclaimLoop objLim none fuel i t r).1.mark k = true ∧
      (awlReclaimLoop objLim none fuel i t r).1.scanned k = true ∧
      (awlReclaimLoop objLim none fuel i t r).1.alloc k = s.alloc k) ∧
    (∀ ab ∈ L, s.mark ab.1 = false → ∀ k, ab.1 ≤ k → k < ab.2 →
      (awlReclaimLoop objLim none fuel i t r).1.mark k = false ∧
      (awlReclaimLoop objLim none fuel i t r).1.scanned k = true ∧
      (awlReclaimLoop objLim none fuel i t r).1.alloc k = false) ∧
    (awlReclaimLoop objLim none fuel i t r).2 = r + reclaimSum s L := by
  intro i L hw
  induction hw with
  | nil =>
    intro fuel t r hfuel hgr hag
    have hloop : awlReclaimLoop objLim none fuel s.grains t r = (t, r) := by
      cases fuel with
      | zero => rfl
      | succ f =>
        simp only [awlReclaimLoop]
        rw [if_neg (by omega)]
    rw [hloop]
    refine ⟨fun k _ => ⟨rfl, rfl, rfl⟩, fun k hk _ => hag k hk, ?_, ?_, ?_⟩
    · intro ab hab; cases hab
    · intro ab hab; cases hab
    · simp [reclaimSum]
  | gap hi halloc _ ih =>
    rename_i i spans hnext
    intro fuel t r hfuel hgr hag
    cases fuel with
    | zero => exfalso; omega
    | succ f =>
      rw [awlReclaimLoop_step_gap objLim none f i t r (by omega)
        ((hag i (le_refl i)).2.2.trans halloc)]
      obtain ⟨u1, u2, u3, u4, u5⟩ :=
        ih f t r (by omega) hgr (fun k hk => hag k (by omega))
      refine ⟨fun k hk => u1 k (by omega), ?_, u3, u4, u5⟩
      intro k hk hun
      rcases Nat.lt_or_ge k (i + 1) with hk1 | hk1
      · have hki : k = i := by omega
        subst hki
        obtain ⟨m1, m2, m3⟩ := u1 k (Or.inl (by omega))
        obtain ⟨a1, a2, a3⟩ := hag k (le_refl _)
        exact ⟨m1.trans a1, m2.trans a2, m3.trans a3⟩
      · exact u2 k hk1 hun
  | obj hi halloc hlt hw ih =>
    rename_i i spans
    intro fuel t r hfuel hgr hag
    have hjle : objLim i ≤ s.grains := AWLWalk_le hw
    cases fuel with
    | zero => exfalso; omega
    | succ f =>
      by_cases hm : s.mark i = true
      · rw [awlReclaimLoop_step_keep objLim f i t r (by omega)
          ((hag i (le_refl i)).2.2.trans halloc) ((hag i (le_refl i)).1.trans hm)]
        obtain ⟨u1, u2, u3, u4, u5⟩ := ih f
          { t with mark := BTSetRange t.mark i (objLim i)
                   scanned := BTSetRange t.scanned i (objLim i) } r
          (by omega) hgr
          (by
            intro k hk
            obtain ⟨a1, a2, a3⟩ := hag k (by omega)
            refine ⟨?_, ?_, a3⟩
            · simp only [BTSetRange_apply]
              rw [if_neg (by omega)]; exact a1
            · simp only [BTSetRange_apply]
              rw [if_neg (by omega)]; exact a2)
        refine ⟨?_, ?_, ?_, ?_, ?_⟩
        · intro k hk
          obtain ⟨m1, m2, m3⟩ := u1 k (by omega)
          refine ⟨?_, ?_, m3⟩
          · rw [m1]; simp only [BTSetRange_apply]; rw [if_neg (by omega)]
          · rw [m2]; simp only [BTSetRange_apply]; rw [if_neg (by omega)]
        · intro k hk hun
          have hhead := hun (i, objLim i) (List.mem_cons_self _ _)
          have hk2 : objLim i ≤ k := by
            rcases hhead with h | h
            · exfalso; omega
            · exact h
          exact u2 k hk2 (fun ab hab => hun ab (List.mem_cons_of_mem _ hab))
        · intro ab hab hmark k hk1 hk2
          rcases List.mem_cons.mp hab with hab | hab
          · subst hab
            obtain ⟨m1, m2, m3⟩ := u1 k (Or.inl (by omega))
            obtain ⟨a1, a2, a3⟩ := hag k (by omega)
            refine ⟨?_, ?_, m3.trans a3⟩
            · rw [m1]; simp only [BTSetRange_apply]; rw [if_pos (by omega)]
            · rw [m2]; simp only [BTSetRange_apply]; rw [if_pos (by omega)]
          · exact u3 ab hab hmark k hk1 hk2
        · intro ab hab hmark k hk1 hk2
          rcases List.mem_cons.mp hab with hab | hab
          · subst hab
            rw [hm] at hmark; cases hmark
          · exact u4 ab hab hmark k hk1 hk2
        · rw [u5]
          simp [reclaimSum, hm]
      · rw [Bool.not_eq_true] at hm
        rw [awlReclaimLoop_step_free objLim f i t r (by omega)
          ((hag i (le_refl i)).2.2.trans halloc) ((hag i (le_refl i)).1.trans hm)]
        obtain ⟨u1, u2, u3, u4, u5⟩ := ih f
          { t with mark := BTResRange t.mark i (objLim i)
                   scanned := BTSetRange t.scanned i (objLim i)
                   alloc := BTResRange t.alloc i (objLim i) } (r + (objLim i - i))
          (by omega) hgr
          (by
            intro k hk
            obtain ⟨a1, a2, a3⟩ := hag k (by omega)
            refine ⟨?_, ?_, ?_⟩
            · simp only [BTResRange_apply]
              rw [if_neg (by omega)]; exact a1
            · simp only [BTSetRange_apply]
              rw [if_neg (by omega)]; exact a2
            · simp only [BTResRange_apply]
              rw [if_neg (by omega)]; exact a3)
        refine ⟨?_, ?_, ?_, ?_, ?_⟩
        · intro k hk
          obtain ⟨m1, m2, m3⟩ := u1 k (by omega)
          refine ⟨?_, ?_, ?_⟩
          · rw [m1]; simp only [BTResRange_apply]; rw [if_neg (by omega)]
          · rw [m2]; simp only [BTSetRange_apply]; rw [if_neg (by omega)]
          · rw [m3]; simp only [BTResRange_apply]; rw [if_neg (by omega)]
        · intro k hk hun
          have hhead := hun (i, objLim i) (List.mem_cons_self _ _)
          have hk2 : objLim i ≤ k := by
            rcases hhead with h | h
            · exfalso; omega
            · exact h
          exact u2 k hk2 (fun ab hab => hun ab (List.mem_cons_of_mem _ hab))
        · intro ab hab hmark k hk1 hk2
          rcases List.mem_cons.mp hab with hab | hab
          · subst hab
            rw [hm] at hmark; cases hmark
          · exact u3 ab hab hmark k hk1 hk2
        · intro ab hab hmark k hk1 hk2
          rcases List.mem_cons.mp hab with hab | hab
          · subst hab
            obtain ⟨m1, m2, m3⟩ := u1 k (Or.inl (by omega))
            refine ⟨?_, ?_, ?_⟩
            · rw [m1]; simp only [BTResRange_apply]; rw [if_pos (by omega)]
            · rw [m2]; simp only [BTSetRange_apply]; rw [if_pos (by omega)]
            · rw [m3]; simp only [BTResRange_apply]; rw [if_pos (by omega)]
          · exact u4 ab hab hmark k hk1 hk2
        · rw [u5]
          simp [reclaimSum, hm]
          omega

/-- C4 (amended): AWL reclaim walks the allocated objects; an object [i, j)
with mark[i] set (whose scanned[i] the code asserts) gets its mark and
scanned bits set over all of [i, j) with alloc unchanged; an object with
mark[i] clear gets mark and alloc reset but scanned SET over [i, j) and
credits j - i grains, moved from oldGrains to freeGrains; grains outside the
walked objects are untouched.  (The frozen claim's words "the mark, scanned
and alloc bits are all reset" and "kept unchanged" do not match the code:
poolawl.c sets the scanned bits of a freed object and rewrites the mark and
scanned bits of a kept one.) -/
theorem C4_awl_reclaim_walk (objLim : Nat → Nat) (s : AWLSeg) (trace : Nat)
    (L : List (Nat × Nat)) (hw : AWLWalk objLim s 0 L)
    (hscan : ∀ ab ∈ L, s.mark ab.1 = true → s.scanned ab.1 = true)
    (hold : reclaimSum s L ≤ s.oldGrains) :
    (∀ ab ∈ L, s.mark ab.1 = true → ∀ k, ab.1 ≤ k → k < ab.2 →
      (AWLReclaim objLim none trace s).mark k = true ∧
      (AWLReclaim objLim none trace s).scanned k = true ∧
      (AWLReclaim objLim none trace s).alloc k = s.alloc k) ∧
    (∀ ab ∈ L, s.mark ab.1 = false → ∀ k, ab.1 ≤ k → k < ab.2 →
      (AWLReclaim objLim none trace s).mark k = false ∧
      (AWLReclaim objLim none trace s).scanned k = true ∧
      (AWLReclaim objLim none trace s).alloc k = false) ∧
    (∀ k, (∀ ab ∈ L, k < ab.1 ∨ ab.2 ≤ k) →
      (AWLReclaim objLim none trace s).mark k = s.mark k ∧
      (AWLReclaim objLim none trace s).scanned k = s.scanned k ∧
      (AWLReclaim objLim none trace s).alloc k = s.alloc k) ∧
    (AWLReclaim objLim none trace s).oldGrains = s.oldGrains - reclaimSum s L ∧
    (AWLReclaim objLim none trace s).freeGrains = s.freeGrains + reclaimSum s L ∧
    (AWLReclaim objLim none trace s).bufferedGrains = s.bufferedGrains ∧
    (AWLReclaim objLim none trace s).newGrains = s.newGrains ∧
    (AWLReclaim objLim none trace s).segWhite = s.segWhite.erase trace := by
  obtain ⟨u1, u2, u3, u4, u5⟩ := awlReclaimLoop_walk_spec objLim s hw
    (s.grains + 1) s 0 (by omega) rfl (fun k _ => ⟨rfl, rfl, rfl⟩)
  obtain ⟨c0, c1, c2, c3, c4, c5, c6⟩ :=
    awlReclaimLoop_scalars objLim none (s.grains + 1) 0 s 0
  refine ⟨u3, u4, fun k hun => u2 k (Nat.zero_le k) hun, ?_, ?_, c2, c3, ?_⟩
  · show (awlReclaimLoop objLim none (s.grains + 1) 0 s 0).1.oldGrains -
      (awlReclaimLoop objLim none (s.grains + 1) 0 s 0).2 =
      s.oldGrains - reclaimSum s L
    rw [c4, u5]
    simp
  · show (awlReclaimLoop objLim none (s.grains + 1) 0 s 0).1.freeGrains +
      (awlReclaimLoop objLim none (s.grains + 1) 0 s 0).2 =
      s.freeGrains + reclaimSum s L
    rw [c1, u5]
    simp
  · show (awlReclaimLoop objLim none (s.grains + 1) 0 s 0).1.segWhite.erase trace =
      s.segWhite.erase trace
    rw [c5]

/-- Reclaim witness layout: two 2-grain objects in a 4-grain segment. -/
def c4wObjLim : Nat → Nat := fun i => if i < 2 then 2 else 4

/-- Reclaim witness segment: [0, 2) unmarked (to be freed), [2, 4) marked
and scanned at its head (to be kept). -/
def c4wSeg : AWLSeg where
  grains := 4
  mark := fun k => decide (k = 2)
  scanned := fun k => decide (k = 2)
  alloc := fun _ => true
  freeGrains := 0
  bufferedGrains := 0
  newGrains := 0
  oldGrains := 4
  singleAccesses := 0
  segWhite := {0}
  segGrey := ∅

theorem C4_awl_reclaim_walk_witness :
    (AWLReclaim c4wObjLim none 0 c4wSeg).mark 0 = false ∧
    (AWLReclaim c4wObjLim none 0 c4wSeg).scanned 0 = true ∧
    (AWLReclaim c4wObjLim none 0 c4wSeg).alloc 0 = false ∧
    (AWLReclaim c4wObjLim none 0 c4wSeg).mark 3 = true ∧
    (AWLReclaim c4wObjLim none 0 c4wSeg).scanned 3 = true ∧
    (AWLReclaim c4wObjLim none 0 c4wSeg).alloc 2 = c4wSeg.alloc 2 ∧
    (AWLReclaim c4wObjLim none 0 c4wSeg).oldGrains = 2 ∧
    (AWLReclaim c4wObjLim none 0 c4wSeg).freeGrains = 2 := by
  have hwalk : AWLWalk c4wObjLim c4wSeg 0 [(0, 2), (2, 4)] :=
    AWLWalk.obj (by decide) (by decide) (by decide)
      (AWLWalk.obj (by decide) (by decide) (by decide) AWLWalk.nil)
  obtain ⟨k1, f1, _, o1, fr1, _, _, _⟩ :=
    C4_awl_reclaim_walk c4wObjLim c4wSeg 0 [(0, 2), (2, 4)] hwalk
      (by decide) (by decide)
  obtain ⟨km, ks, ka⟩ := k1 (2, 4) (by simp) (by decide) 3 (by decide) (by decide)
  obtain ⟨km2, _, ka2⟩ := k1 (2, 4) (by simp) (by decide) 2 (by decide) (by decide)
  obtain ⟨fm, fs, fa⟩ := f1 (0, 2) (by simp) (by decide) 0 (by decide) (by decide)
  refine ⟨fm, fs, fa, km, ks, ka2, ?_, ?_⟩
  · rw [o1]; decide
  · rw [fr1]; decide

/-- Counterexample layout for the frozen C4 wording. -/
def c4cObjLim : Nat → Nat := fun i => if i < 2 then 2 else 4

/-- Counterexample segment: object [0, 2) unmarked, object [2, 4) marked at
its head with its interior mark bit clear. -/
def c4cSeg : AWLSeg where
  grains := 4
  mark := fun k => decide (k = 2)
  scanned := fun k => decide (k = 2)
  alloc := fun _ => true
  freeGrains := 0
  bufferedGrains := 0
  newGrains := 0
  oldGrains := 4
  singleAccesses := 0
  segWhite := {0}
  segGrey := ∅

/-- The frozen C4 wording is false on this input: the freed object [0, 2)
would have its scanned bits "all reset", but the code sets scanned[0]; the
kept object [2, 4) would be "kept unchanged", but the code sets mark[3]. -/
theorem C4_counterexample :
    c4cSeg.alloc 0 = true ∧ c4cSeg.mark 0 = false ∧
    (AWLReclaim c4cObjLim none 0 c4cSeg).scanned 0 = true ∧
    c4cSeg.alloc 2 = true ∧ c4cSeg.mark 2 = true ∧ c4cSeg.scanned 2 = true ∧
    c4cSeg.mark 3 = false ∧
    (AWLReclaim c4cObjLim none 0 c4cSeg).mark 3 = true := by
  decide

/-! ## C7: split/merge round trip -/

/-- Counterexample segment for the frozen C7 wording: entirely free, in
firstFree mode, with its (meaningless while colour tables are off) nongrey
and nonwhite bits all clear. -/
def c7cSeg : AMSSeg where
  grains := 2
  freeGrains := 2
  bufferedGrains := 0
  newGrains := 0
  oldGrains := 0
  allocBT := fun _ => false
  nongreyBT := fun _ => false
  nonwhiteBT := fun _ => false
  allocTableInUse := false
  firstFree := 0
  colourTablesInUse := false
  marksChanged := false
  ambiguousFixes := false
  segWhite := ∅
  segGrey := ∅

/-- Fresh tables handed to split/merge in the C7 counterexample. -/
def c7cPack : TablePack where
  allocT := fun _ => false
  nongreyT := fun _ => false
  nonwhiteT := fun _ => false

/-- The frozen C7 wording is false on this input: every split precondition
holds (high half entirely free, aligned split, no marks changed), yet merging
the two halves back forces the nongrey bit of grain 1 to true while the
original segment had it clear, so the three tables are not restored
pointwise. -/
theorem C7_counterexample :
    1 + 1 = c7cSeg.grains ∧ 1 ≤ c7cSeg.freeGrains ∧
    c7cSeg.allocTableInUse = false ∧ c7cSeg.firstFree ≤ 1 ∧
    c7cSeg.marksChanged = false ∧
    (AMSSegMerge (AMSSegSplit c7cSeg 1 1 c7cPack c7cPack ∅ ∅).1
      (AMSSegSplit c7cSeg 1 1 c7cPack c7cPack ∅ ∅).2 c7cPack).nongreyBT 1 = true ∧
    c7cSeg.nongreyBT 1 = false := by
  decide

/-- C7 (amended): splitting then merging restores the segment provided the
high range is in the canonical form the merge re-imposes: alloc bits clear
and nongrey and nonwhite bits set over [loGrains, grains).  Then the round
trip restores all three bit tables pointwise on [0, grains), all five grain
counters, and the allocTableInUse/firstFree allocation mode.  (The frozen
claim has no hypothesis on the high range's colour bits: merge forces
nongrey and nonwhite to true and alloc to false over the high range, so a
segment whose free high range carries other bit values — legal while the
tables are not in use — is not restored, as the counterexample shows.) -/
theorem C7_split_merge_round_trip (s : AMSSeg) (loGrains hiGrains : Nat)
    (fLo fHi fM : TablePack) (w g : TraceSet)
    (hg : loGrains + hiGrains = s.grains)
    (hfree : hiGrains ≤ s.freeGrains)
    (hff : s.allocTableInUse = false → s.firstFree ≤ loGrains)
    (hmarks : s.marksChanged = false)
    (halloc : ∀ k, loGrains ≤ k → k < s.grains → s.allocBT k = false)
    (hng : ∀ k, loGrains ≤ k → k < s.grains → s.nongreyBT k = true)
    (hnw : ∀ k, loGrains ≤ k → k < s.grains → s.nonwhiteBT k = true) :
    (∀ k, k < s.grains →
      (AMSSegMerge (AMSSegSplit s loGrains hiGrains fLo fHi w g).1
        (AMSSegSplit s loGrains hiGrains fLo fHi w g).2 fM).allocBT k = s.allocBT k ∧
      (AMSSegMerge (AMSSegSplit s loGrains hiGrains fLo fHi w g).1
        (AMSSegSplit s loGrains hiGrains fLo fHi w g).2 fM).nongreyBT k = s.nongreyBT k ∧
      (AMSSegMerge (AMSSegSplit s loGrains hiGrains fLo fHi w g).1
        (AMSSegSplit s loGrains hiGrains fLo fHi w g).2 fM).nonwhiteBT k = s.nonwhiteBT k) ∧
    (AMSSegMerge (AMSSegSplit s loGrains hiGrains fLo fHi w g).1
      (AMSSegSplit s loGrains hiGrains fLo fHi w g).2 fM).grains = s.grains ∧
    (AMSSegMerge (AMSSegSplit s loGrains hiGrains fLo fHi w g).1
      (AMSSegSplit s loGrains hiGrains fLo fHi w g).2 fM).freeGrains = s.freeGrains ∧
    (AMSSegMerge (AMSSegSplit s loGrains hiGrains fLo fHi w g).1
      (AMSSegSplit s loGrains hiGrains fLo fHi w g).2 fM).bufferedGrains = s.bufferedGrains ∧
    (AMSSegMerge (AMSSegSplit s loGrains hiGrains fLo fHi w g).1
      (AMSSegSplit s loGrains hiGrains fLo fHi w g).2 fM).newGrains = s.newGrains ∧
    (AMSSegMerge (AMSSegSplit s loGrains hiGrains fLo fHi w g).1
      (AMSSegSplit s loGrains hiGrains fLo fHi w g).2 fM).oldGrains = s.oldGrains ∧
    (AMSSegMerge (AMSSegSplit s loGrains hiGrains fLo fHi w g).1
      (AMSSegSplit s loGrains hiGrains fLo fHi w g).2 fM).allocTableInUse = s.allocTableInUse ∧
    (AMSSegMerge (AMSSegSplit s loGrains hiGrains fLo fHi w g).1
      (AMSSegSplit s loGrains hiGrains fLo fHi w g).2 fM).firstFree = s.firstFree := by
  refine ⟨?_, ?_, ?_, rfl, rfl, rfl, rfl, rfl⟩
  · intro k hk
    by_cases hkl : k < loGrains
    · refine ⟨?_, ?_, ?_⟩
      · show BTResRange (BTCopyRange (BTCopyRange s.allocBT fLo.allocT 0 loGrains)
          fM.allocT 0 loGrains) loGrains (loGrains + hiGrains) k = s.allocBT k
        rw [BTResRange_apply, if_neg (by omega), BTCopyRange_apply,
          if_pos (by omega), BTCopyRange_apply, if_pos (by omega)]
      · show BTSetRange (BTCopyRange (BTCopyRange s.nongreyBT fLo.nongreyT 0 loGrains)
          fM.nongreyT 0 loGrains) loGrains (loGrains + hiGrains) k = s.nongreyBT k
        rw [BTSetRange_apply, if_neg (by omega), BTCopyRange_apply,
          if_pos (by omega), BTCopyRange_apply, if_pos (by omega)]
      · show BTSetRange (BTCopyRange (BTCopyRange s.nonwhiteBT fLo.nonwhiteT 0 loGrains)
          fM.nonwhiteT 0 loGrains) loGrains (loGrains + hiGrains) k = s.nonwhiteBT k
        rw [BTSetRange_apply, if_neg (by omega), BTCopyRange_apply,
          if_pos (by omega), BTCopyRange_apply, if_pos (by omega)]
    · refine ⟨?_, ?_, ?_⟩
      · show BTResRange (BTCopyRange (BTCopyRange s.allocBT fLo.allocT 0 loGrains)
          fM.allocT 0 loGrains) loGrains (loGrains + hiGrains) k = s.allocBT k
        rw [BTResRange_apply, if_pos (by omega), halloc k (by omega) hk]
      · show BTSetRange (BTCopyRange (BTCopyRange s.nongreyBT fLo.nongreyT 0 loGrains)
          fM.nongreyT 0 loGrains) loGrains (loGrains + hiGrains) k = s.nongreyBT k
        rw [BTSetRange_apply, if_pos (by omega), hng k (by omega) hk]
      · show BTSetRange (BTCopyRange (BTCopyRange s.nonwhiteBT fLo.nonwhiteT 0 loGrains)
          fM.nonwhiteT 0 loGrains) loGrains (loGrains + hiGrains) k = s.nonwhiteBT k
        rw [BTSetRange_apply, if_pos (by omega), hnw k (by omega) hk]
  · show loGrains + hiGrains = s.grains
    exact hg
  · show s.freeGrains - hiGrains + hiGrains = s.freeGrains
    omega

/-- C7 witness segment: grain 0 allocated, grain 1 free in canonical form. -/
def c7wSeg : AMSSeg where
  grains := 2
  freeGrains := 1
  bufferedGrains := 0
  newGrains := 1
  oldGrains := 0
  allocBT := fun k => decide (k = 0)
  nongreyBT := fun _ => true
  nonwhiteBT := fun _ => true
  allocTableInUse := true
  firstFree := 0
  colourTablesInUse := false
  marksChanged := false
  ambiguousFixes := false
  segWhite := ∅
  segGrey := ∅

/-- Fresh tables handed to split/merge in the C7 witness. -/
def c7wPack : TablePack where
  allocT := fun _ => true
  nongreyT := fun _ => false
  nonwhiteT := fun _ => false

theorem C7_split_merge_round_trip_witness :
    (AMSSegMerge (AMSSegSplit c7wSeg 1 1 c7wPack c7wPack ∅ ∅).1
      (AMSSegSplit c7wSeg 1 1 c7wPack c7wPack ∅ ∅).2 c7wPack).allocBT 0 =
      c7wSeg.allocBT 0 ∧
    (AMSSegMerge (AMSSegSplit c7wSeg 1 1 c7wPack c7wPack ∅ ∅).1
      (AMSSegSplit c7wSeg 1 1 c7wPack c7wPack ∅ ∅).2 c7wPack).nonwhiteBT 1 =
      c7wSeg.nonwhiteBT 1 ∧
    (AMSSegMerge (AMSSegSplit c7wSeg 1 1 c7wPack c7wPack ∅ ∅).1
      (AMSSegSplit c7wSeg 1 1 c7wPack c7wPack ∅ ∅).2 c7wPack).freeGrains =
      c7wSeg.freeGrains ∧
    (AMSSegMerge (AMSSegSplit c7wSeg 1 1 c7wPack c7wPack ∅ ∅).1
      (AMSSegSplit c7wSeg 1 1 c7wPack c7wPack ∅ ∅).2 c7wPack).newGrains =
      c7wSeg.newGrains := by
  obtain ⟨ht, _, hfree, _, hnew, _⟩ :=
    C7_split_merge_round_trip c7wSeg 1 1 c7wPack c7wPack c7wPack ∅ ∅
      (by decide) (by decide) (fun h => by cases h)
      (by decide)
      (fun k h1 h2 => by
        have hg2 : c7wSeg.grains = 2 := rfl
        rw [hg2] at h2
        have hk : k = 1 := by omega
        subst hk; decide)
      (fun k h1 h2 => by
        have hg2 : c7wSeg.grains = 2 := rfl
        rw [hg2] at h2
        have hk : k = 1 := by omega
        subst hk; decide)
      (fun k h1 h2 => by
        have hg2 : c7wSeg.grains = 2 := rfl
        rw [hg2] at h2
        have hk : k = 1 := by omega
        subst hk; decide)
  exact ⟨(ht 0 (by decide)).1, (ht 1 (by decide)).2.2, hfree, hnew⟩

/-! ## C8: SNC frame push/pop round trip -/

/-- Counterexample state for the frozen C8 wording: the buffer's segment is
full (init = alloc = SegLimit = 16) and the freelist holds a second, larger
segment. -/
def c8cState : SNCState where
  segs := [(0, { base := 0, limit := 16 }), (1, { base := 32, limit := 64 })]
  freeSegs := [1]
  chain := [0]
  bufSeg := some 0
  bufBase := 0
  bufInit := 16
  bufAlloc := 16
  bufLimit := 16

/-- The frozen C8 wording is false on this input: with the buffer's segment
full, SNCFramePush refills the buffer from the freelist (pushing segment 1
onto the chain and attaching at its base 32), and popping the returned frame
lands in the new segment, so the buffer ends with alloc pointer 32 (not 16)
and chain head 1 (not 0). -/
theorem C8_counterexample :
    c8cState.bufAlloc = 16 ∧ c8cState.chain.head? = some 0 ∧
    (SNCFramePush c8cState 8 none).isSome = true ∧
    (SNCFramePop ((SNCFramePush c8cState 8 none).getD (none, c8cState)).2
      ((SNCFramePush c8cState 8 none).getD (none, c8cState)).1).bufAlloc = 32 ∧
    (SNCFramePop ((SNCFramePush c8cState 8 none).getD (none, c8cState)).2
      ((SNCFramePush c8cState 8 none).getD (none, c8cState)).1).chain.head? =
      some 1 := by
  decide

/-- C8 (amended): framePush immediately followed by framePop with the
returned frame restores the buffer state exactly — provided the push does
not have to refill the buffer: either the buffer is reset with an empty
chain, or it is attached with init strictly below the segment limit (and the
arena locates init's segment as the buffer's).  The buffer must also be
ready (alloc = init, no reservation in flight).  (The frozen claim holds for
no such proviso: when init has reached the segment limit the push refills
the buffer onto a new segment, changing the alloc pointer and the chain
head, as the counterexample shows.) -/
theorem C8_push_pop_round_trip (s : SNCState) (alignment : Nat)
    (fresh : Option (Nat × SNCSegInfo))
    (hready : s.bufAlloc = s.bufInit)
    (hreset : s.bufSeg = none → s.chain = [])
    (hroom : ∀ segId, s.bufSeg = some segId →
      s.bufInit < (sncSegInfo s.segs segId).limit ∧
      segOfAddr s.segs s.bufInit = some segId) :
    ∃ frame, SNCFramePush s alignment fresh = some (frame, s) ∧
      SNCFramePop s frame = s := by
  cases hb : s.bufSeg with
  | none =>
    refine ⟨none, ?_, ?_⟩
    · unfold SNCFramePush
      rw [hb]
    · unfold SNCFramePop
      have hd : sncBufferDetach s = s := by
        unfold sncBufferDetach
        rw [hb]
      rw [hd]
      unfold sncPopSegChain
      rw [hreset hb]
      cases s
      simp_all
  | some segId =>
    obtain ⟨hroom1, hroom2⟩ := hroom segId hb
    refine ⟨some s.bufInit, ?_, ?_⟩
    · unfold SNCFramePush
      rw [hb]
      simp only []
      rw [if_pos hroom1]
    · unfold SNCFramePop
      simp only []
      rw [hroom2]
      simp only []
      rw [hb, if_pos rfl]
      cases s
      simp_all

/-- C8 witness state: buffer attached to segment 0 with room left. -/
def c8wState : SNCState where
  segs := [(0, { base := 0, limit := 16 })]
  freeSegs := []
  chain := [0]
  bufSeg := some 0
  bufBase := 0
  bufInit := 8
  bufAlloc := 8
  bufLimit := 16

theorem C8_push_pop_round_trip_witness :
    ∃ frame, SNCFramePush c8wState 8 none = some (frame, c8wState) ∧
      SNCFramePop c8wState frame = c8wState :=
  C8_push_pop_round_trip c8wState 8 none rfl (fun h => by cases h)
    (fun segId h => by
      injection h with h1
      subst h1
      exact ⟨by decide, by decide⟩)

end MPS
